import Mathlib

/-!
Verification of the xeno-assignment-backend synchronization and ingestion
engine.  The development shallowly embeds the repository's core modules:

* `src/dist/webhooks.js` — `verifyHmac` and `processWebhookPayload`;
* `src/src/shopify.ts` — `extractNextPageInfo` and `paginateAll`;
* `src/dist/sync.js` — `fullSync` (per-entity upserts plus the backfill pass);
* `src/index.ts` — the `POST /api/webhooks/shopify` route;
* the Prisma schema (`prisma/migrations/.../migration.sql`) — row shapes and
  uniqueness constraints.

The persistent store is modelled as lists of rows with an id allocator;
Prisma's `upsert` keyed by a composite unique index becomes an explicit
find/update/insert on those lists.  External platform primitives
(HMAC-SHA256, `JSON.stringify`, the remote HTTP server) are parameters of
the embedded functions; possible rejections of awaited storage calls are
driven by an explicit failure oracle so that the error-flow of the
try/catch structure can be stated.
-/

/-- JS truthiness on an optional string (`x ? a : b`): `null`/`undefined`
and the empty string are falsy.  Returns the string exactly when truthy. -/
def truthyStr : Option String → Option String
  | some s => if s = "" then none else some s
  | none => none

/-- Whether an optional string field is JS-truthy. -/
def isTruthy (o : Option String) : Bool := (truthyStr o).isSome

/-- Model of `Buffer.from(s, "utf8")` as the code-point sequence of the
string.  The map is injective and equality of two such buffers coincides
with equality of the corresponding UTF-8 byte sequences, which is all the
comparisons below observe. -/
def strBytes (s : String) : List Nat := s.data.map Char.toNat

/-- The standard base64 alphabet. -/
def base64Alphabet : List Char :=
  "ABCDEFGHIJKLMNOPQRSTUVWXYZabcdefghijklmnopqrstuvwxyz0123456789+/".data

/-- Digit lookup in the base64 alphabet. -/
def base64Digit (n : Nat) : Char := base64Alphabet.getD n 'A'

/-- Standard base64 rendering of a byte list, with `=` padding: model of
`crypto`'s `digest("base64")` output format. -/
def base64Encode : List Nat → String
  | [] => ""
  | [b1] =>
    String.mk [base64Digit (b1 / 4), base64Digit (b1 % 4 * 16), '=', '=']
  | [b1, b2] =>
    String.mk [base64Digit (b1 / 4), base64Digit (b1 % 4 * 16 + b2 / 16),
               base64Digit (b2 % 16 * 4), '=']
  | b1 :: b2 :: b3 :: rest =>
    String.mk [base64Digit (b1 / 4), base64Digit (b1 % 4 * 16 + b2 / 16),
               base64Digit (b2 % 16 * 4 + b3 / 64), base64Digit (b3 % 64)]
      ++ base64Encode rest

/-- Model of `crypto.timingSafeEqual`: throws (`.error`) when the two buffer
lengths differ — before any byte comparison happens — and otherwise reports
byte-wise equality (computed in constant time by the real primitive). -/
def timingSafeEqual (a b : List Nat) : Except Unit Bool :=
  if a.length = b.length then .ok (a == b) else .error ()

/-- The three shapes `verifyHmac` accepts for its `rawBody` argument:
a byte buffer, a string, or a parsed object of some type `ω`. -/
inductive RawBody (ω : Type) where
  | buf (bytes : List Nat)
  | str (s : String)
  | obj (o : ω)

/-- `verifyHmac` from `src/dist/webhooks.js`.

The HMAC-SHA256 primitive (`crypto.createHmac("sha256", secret)
.update(data).digest()`) and `JSON.stringify` are external platform
primitives, passed in as `hmac` (secret and message bytes to digest bytes)
and `stringifyJson` (`none` models a thrown serialization error).  The code:
reject a falsy header; normalize the body to a buffer, stringifying a
non-buffer non-string object as a last resort; base64 the digest; compare
with `timingSafeEqual`, treating its length-mismatch exception as invalid. -/
def verifyHmac {ω : Type} (hmac : String → List Nat → List Nat)
    (stringifyJson : ω → Option String)
    (rawBody : RawBody ω) (hmacHeader : String) (secret : String) : Bool :=
  if hmacHeader = "" then false
  else
    match (match rawBody with
           | .buf bs => some bs
           | .str s => some (strBytes s)
           | .obj o => (stringifyJson o).map strBytes) with
    | none => false
    | some dataBuf =>
      match timingSafeEqual (strBytes (base64Encode (hmac secret dataBuf)))
              (strBytes hmacHeader) with
      | .ok b => b
      | .error _ => false

/-! ### Pagination (`src/src/shopify.ts`) -/

/-- One entry of the parsed `Link` response header: the `page_info` query
parameter captured from the bracketed URL (when the URL carries one), and
the `rel` attribute value. -/
structure LinkEntry where
  page_info : Option String
  rel : String
deriving DecidableEq

/-- The request data `paginateAll` sends for one page: the fixed page size
`limit`, the `status` filter from `extraQuery` (set for orders), and the
continuation token once past the first page. -/
structure ShopifyReq where
  limit : Nat
  status : Option String
  page_info : Option String
deriving DecidableEq

/-- One response from the remote server: `body[rootKey]` (absent models a
response without the collection key, defaulted to `[]` by the code) and the
parsed `Link` header (`headers.get("link")`, `none` when absent). -/
structure PageResp (α : Type) where
  body : Option (List α)
  link : Option (List LinkEntry)

/-- Character-wise lowercasing, the model of the regex engine's
case-insensitive (`i`) matching of the `rel` value. -/
def lowerStr (s : String) : String := String.mk (s.data.map Char.toLower)

/-- `extractNextPageInfo`: the regex
`/<[^>]*[?&]page_info=([^&>]+)[^>]*>;\s*rel="next"/i` over the raw header,
viewed on the parsed entry list: the first entry whose `rel` is `"next"`
(case-insensitively) and whose URL carries a `page_info` parameter yields
that parameter; no such entry (or no header) yields `undefined`. -/
def extractNextPageInfo (link : Option (List LinkEntry)) : Option String :=
  match link with
  | none => none
  | some entries =>
    (entries.find? (fun e => lowerStr e.rel == "next" && e.page_info.isSome)).bind
      (·.page_info)

/-- The `while (true)` loop body of `paginateAll`, with explicit fuel (the
JS loop has no intrinsic bound) and accumulators for the collected items
and the requests issued so far.  Each iteration sends `limit := 250`, the
`status` extra query, and the current continuation token; appends
`body[rootKey] ?? []`; and continues exactly when the `Link` header yields
a next token. -/
def paginateLoop {α : Type} (srv : ShopifyReq → PageResp α) (status : Option String) :
    Nat → Option String → List α → List ShopifyReq → List α × List ShopifyReq
  | 0, _, acc, reqs => (acc, reqs)
  | fuel + 1, pageInfo, acc, reqs =>
    let req : ShopifyReq := ⟨250, status, pageInfo⟩
    let resp := srv req
    let acc' := acc ++ resp.body.getD []
    let reqs' := reqs ++ [req]
    match extractNextPageInfo resp.link with
    | none => (acc', reqs')
    | some next => paginateLoop srv status fuel (some next) acc' reqs'

/-- `paginateAll`: run the loop from no continuation token.  Returns the
materialized item list together with the request trace. -/
def paginateAll {α : Type} (srv : ShopifyReq → PageResp α) (status : Option String)
    (fuel : Nat) : List α × List ShopifyReq :=
  paginateLoop srv status fuel none [] []

/-- `fetchAllOrders` sets `status=any` on every page request. -/
def fetchAllOrders {α : Type} (srv : ShopifyReq → PageResp α) (fuel : Nat) :
    List α × List ShopifyReq :=
  paginateAll srv (some "any") fuel

/-! ### Data model (Prisma schema, `migration.sql`) -/

/-- A `Tenant` row: `shop` is globally unique; `accessToken` and
`webhookSecret` are nullable. -/
structure TenantRow where
  id : String
  shop : String
  accessToken : Option String
  webhookSecret : Option String
deriving DecidableEq

/-- A `Customer` row.  Local primary key `id` (allocated by the store),
natural key `(tenantId, shopifyCustomerId)`; every other column nullable.
Timestamps are kept as the ISO-8601 text they were parsed from. -/
structure CustomerRow where
  id : Nat
  tenantId : String
  shopifyCustomerId : String
  email : Option String
  firstName : Option String
  lastName : Option String
  createdAt : Option String
  updatedAt : Option String
deriving DecidableEq

/-- A `Product` row: natural key `(tenantId, shopifyProductId)`; `title`
and `price` are non-null columns. -/
structure ProductRow where
  id : Nat
  tenantId : String
  shopifyProductId : String
  title : String
  sku : Option String
  price : String
  createdAt : Option String
deriving DecidableEq

/-- An `Order` row: natural key `(tenantId, shopifyOrderId)`; `customerId`
is a nullable reference to a local `Customer.id`. -/
structure OrderRow where
  id : Nat
  tenantId : String
  shopifyOrderId : String
  orderNumber : Option String
  totalPrice : String
  currency : Option String
  createdAt : Option String
  customerId : Option Nat
deriving DecidableEq

/-- A row of the raw-event fallback table (`prisma.event.create`). -/
structure EventRow where
  id : Nat
  tenantId : String
  eventType : String
deriving DecidableEq

/-- The relational store: one list per table plus the primary-key
allocator shared by all tables (Prisma generates ids; a single counter
makes every id unique across its table). -/
structure Store where
  tenants : List TenantRow
  customers : List CustomerRow
  products : List ProductRow
  orders : List OrderRow
  events : List EventRow
  nextId : Nat
deriving DecidableEq

/-- Result of one Prisma `upsert`: the new table contents, the advanced id
allocator, and the primary key of the affected row (Prisma returns the
created or updated row; `processWebhookPayload` reads `cust.id` off it). -/
structure UpsertResult (ρ : Type) where
  rows : List ρ
  nextId : Nat
  rowId : Nat
deriving DecidableEq

/-- Prisma `upsert` keyed by a unique index, on a list-modelled table:
if a row matching `key` exists, apply `upd` to the matching rows (under the
schema's unique constraint at most one row matches) and report its id;
otherwise append `mk nextId` and advance the allocator. -/
def upsertBy {ρ : Type} (key : ρ → Bool) (upd : ρ → ρ) (mk : Nat → ρ)
    (getId : ρ → Nat) (rows : List ρ) (nextId : Nat) : UpsertResult ρ :=
  match rows.find? key with
  | some r => ⟨rows.map (fun q => if key q then upd q else q), nextId, getId r⟩
  | none => ⟨rows ++ [mk nextId], nextId + 1, nextId⟩

/-! ### Remote record shapes

Fields are the values the code reads off the raw JSON records; ids are
kept as the strings the code produces with `String(x.id)`. -/

/-- A raw remote customer record (also the embedded `payload.customer` of
an order webhook). -/
structure CustomerRecord where
  id : String
  email : Option String
  first_name : Option String
  last_name : Option String
  created_at : Option String
  updated_at : Option String
deriving DecidableEq

/-- One entry of a product's `variants` array. -/
structure Variant where
  sku : Option String
  price : Option String
deriving DecidableEq

/-- A raw remote product record.  `variants` is `none` when the field is
absent (`p.variants` falsy). -/
structure ProductRecord where
  id : String
  title : Option String
  variants : Option (List Variant)
  created_at : Option String
deriving DecidableEq

/-- A raw remote order record; `customer` is the embedded customer object
when present. -/
structure OrderRecord where
  id : String
  order_number : Option String
  total_price : Option String
  currency : Option String
  created_at : Option String
  customer : Option CustomerRecord
deriving DecidableEq

/-- `p.variants && p.variants[0]?.sku ? p.variants[0].sku : null`. -/
def firstVariantSku (variants : Option (List Variant)) : Option String :=
  match variants with
  | some (v :: _) => truthyStr v.sku
  | _ => none

/-- `p.variants && p.variants[0]?.price ? p.variants[0].price : "0.00"`. -/
def firstVariantPrice (variants : Option (List Variant)) : String :=
  (match variants with
   | some (v :: _) => truthyStr v.price
   | _ => none).getD "0.00"

/-! ### Reconciliation routines — `fullSync` (`src/dist/sync.js`) -/

/-- Natural-key test for a customer row. -/
def custKey (tenantId shopifyCustomerId : String) (r : CustomerRow) : Bool :=
  r.tenantId == tenantId && r.shopifyCustomerId == shopifyCustomerId

/-- Natural-key test for a product row. -/
def prodKey (tenantId shopifyProductId : String) (r : ProductRow) : Bool :=
  r.tenantId == tenantId && r.shopifyProductId == shopifyProductId

/-- Natural-key test for an order row. -/
def orderKey (tenantId shopifyOrderId : String) (r : OrderRow) : Bool :=
  r.tenantId == tenantId && r.shopifyOrderId == shopifyOrderId

/-- The `update` branch of the customer upsert in `fullSync`: `data` sets
`email`/`firstName`/`lastName` outright (to `null` when absent) and sets a
timestamp only when the raw value is truthy (`undefined` leaves the stored
column unchanged). -/
def syncCustomerUpd (c : CustomerRecord) (r : CustomerRow) : CustomerRow :=
  { r with
    email := c.email
    firstName := c.first_name
    lastName := c.last_name
    createdAt := (truthyStr c.created_at).or r.createdAt
    updatedAt := (truthyStr c.updated_at).or r.updatedAt }

/-- The `create` branch of the customer upsert in `fullSync`. -/
def syncCustomerMk (tenantId : String) (c : CustomerRecord) (n : Nat) : CustomerRow :=
  { id := n, tenantId := tenantId, shopifyCustomerId := c.id
    email := c.email, firstName := c.first_name, lastName := c.last_name
    createdAt := truthyStr c.created_at, updatedAt := truthyStr c.updated_at }

/-- One iteration of `fullSync`'s customer loop (the composite-key
`prisma.customer.upsert`). -/
def syncCustomerApply (tenantId : String) (c : CustomerRecord) (st : Store) : Store :=
  let res := upsertBy (custKey tenantId c.id) (syncCustomerUpd c)
    (syncCustomerMk tenantId c) (·.id) st.customers st.nextId
  { st with customers := res.rows, nextId := res.nextId }

/-- The fallback path of `fullSync`'s customer loop: `findFirst` by
`(tenantId, shopifyCustomerId)`, then `update` by primary key when a row
was found, else `create` with the same data as the upsert's create. -/
def syncCustomerFallback (tenantId : String) (c : CustomerRecord) (st : Store) : Store :=
  match st.customers.find? (custKey tenantId c.id) with
  | some existing =>
    { st with customers :=
        st.customers.map (fun q => if q.id == existing.id then syncCustomerUpd c q else q) }
  | none =>
    { st with customers := st.customers ++ [syncCustomerMk tenantId c st.nextId]
              nextId := st.nextId + 1 }

/-- The `update` branch of the product upsert in `fullSync` (`title` is
always set, defaulted; `sku`/`price` derive from the first variant;
`createdAt` only when truthy). -/
def syncProductUpd (p : ProductRecord) (r : ProductRow) : ProductRow :=
  { r with
    title := p.title.getD "Untitled"
    sku := firstVariantSku p.variants
    price := firstVariantPrice p.variants
    createdAt := (truthyStr p.created_at).or r.createdAt }

/-- The `create` branch of the product upsert in `fullSync`. -/
def syncProductMk (tenantId : String) (p : ProductRecord) (n : Nat) : ProductRow :=
  { id := n, tenantId := tenantId, shopifyProductId := p.id
    title := p.title.getD "Untitled"
    sku := firstVariantSku p.variants
    price := firstVariantPrice p.variants
    createdAt := truthyStr p.created_at }

/-- One iteration of `fullSync`'s product loop. -/
def syncProductApply (tenantId : String) (p : ProductRecord) (st : Store) : Store :=
  let res := upsertBy (prodKey tenantId p.id) (syncProductUpd p)
    (syncProductMk tenantId p) (·.id) st.products st.nextId
  { st with products := res.rows, nextId := res.nextId }

/-- The tenant-scoped reference lookup of the order loops:
`prisma.customer.findFirst({ where: { tenantId, shopifyCustomerId } })`,
keeping only the local `id`. -/
def resolveCustomerId (tenantId shopifyCustomerId : String)
    (customers : List CustomerRow) : Option Nat :=
  (customers.find? (custKey tenantId shopifyCustomerId)).map (·.id)

/-- The `op` object of the order upsert (used for both `update` and
`create`): fields left `undefined` keep the stored value on update and the
column default (`null`) on create. -/
def orderUpd (o : OrderRecord) (customerId : Option Nat) (r : OrderRow) : OrderRow :=
  { r with
    orderNumber := (truthyStr o.order_number).or r.orderNumber
    totalPrice := o.total_price.getD "0.00"
    currency := o.currency.or r.currency
    createdAt := (truthyStr o.created_at).or r.createdAt
    customerId := customerId.or r.customerId }

/-- The `create` branch of the order upsert. -/
def orderMk (tenantId : String) (o : OrderRecord) (customerId : Option Nat)
    (n : Nat) : OrderRow :=
  { id := n, tenantId := tenantId, shopifyOrderId := o.id
    orderNumber := truthyStr o.order_number
    totalPrice := o.total_price.getD "0.00"
    currency := o.currency
    createdAt := truthyStr o.created_at
    customerId := customerId }

/-- The order upsert shared by both paths, given the already-resolved
customer reference. -/
def orderUpsert (tenantId : String) (o : OrderRecord) (customerId : Option Nat)
    (st : Store) : Store :=
  let res := upsertBy (orderKey tenantId o.id) (orderUpd o customerId)
    (orderMk tenantId o customerId) (·.id) st.orders st.nextId
  { st with orders := res.rows, nextId := res.nextId }

/-- One iteration of `fullSync`'s order loop: resolve the customer
reference by tenant-scoped lookup when `o.customer?.id` is truthy, then
upsert the order. -/
def syncOrderApply (tenantId : String) (o : OrderRecord) (st : Store) : Store :=
  let customerId : Option Nat :=
    match o.customer with
    | some c => if c.id = "" then none
                else resolveCustomerId tenantId c.id st.customers
    | none => none
  orderUpsert tenantId o customerId st

/-! ### Reconciliation routines — webhooks (`src/dist/webhooks.js`) -/

/-- The `update` branch of the webhook customer upsert: every field uses
`?? undefined`, so an absent raw value leaves the stored column unchanged
(`createdAt` is not part of this update at all). -/
def webhookCustomerUpd (c : CustomerRecord) (r : CustomerRow) : CustomerRow :=
  { r with
    email := c.email.or r.email
    firstName := c.first_name.or r.firstName
    lastName := c.last_name.or r.lastName
    updatedAt := (truthyStr c.updated_at).or r.updatedAt }

/-- The `create` branch of the webhook customer upsert (same shape as the
sync one: `?? null` on names, truthy-guarded timestamps). -/
def webhookCustomerMk (tenantId : String) (c : CustomerRecord) (n : Nat) : CustomerRow :=
  { id := n, tenantId := tenantId, shopifyCustomerId := c.id
    email := c.email, firstName := c.first_name, lastName := c.last_name
    createdAt := truthyStr c.created_at, updatedAt := truthyStr c.updated_at }

/-- The webhook customer upsert, also reporting the affected row's local
id (`cust.id`, consumed by the orders branch). -/
def webhookCustomerUpsert (tenantId : String) (c : CustomerRecord) (st : Store) :
    Store × Nat :=
  let res := upsertBy (custKey tenantId c.id) (webhookCustomerUpd c)
    (webhookCustomerMk tenantId c) (·.id) st.customers st.nextId
  ({ st with customers := res.rows, nextId := res.nextId }, res.rowId)

/-- The webhook customer branch (`customers/create` / `customers/update`),
dropping the returned row. -/
def webhookCustomerApply (tenantId : String) (c : CustomerRecord) (st : Store) : Store :=
  (webhookCustomerUpsert tenantId c st).1

/-- The `update` branch of the webhook product upsert: `title` uses
`?? undefined` (unchanged when absent), unlike the sync path. -/
def webhookProductUpd (p : ProductRecord) (r : ProductRow) : ProductRow :=
  { r with
    title := p.title.getD r.title
    sku := firstVariantSku p.variants
    price := firstVariantPrice p.variants
    createdAt := (truthyStr p.created_at).or r.createdAt }

/-- The webhook product branch (`products/create` / `products/update`);
the `create` branch coincides with the sync one. -/
def webhookProductApply (tenantId : String) (p : ProductRecord) (st : Store) : Store :=
  let res := upsertBy (prodKey tenantId p.id) (webhookProductUpd p)
    (syncProductMk tenantId p) (·.id) st.products st.nextId
  { st with products := res.rows, nextId := res.nextId }

/-- The `orders/` topic branch: when `payload.customer?.id` is truthy,
upsert the embedded customer first and reference its local id; then upsert
the order. -/
def webhookOrderApply (tenantId : String) (o : OrderRecord) (st : Store) : Store :=
  match o.customer with
  | some c =>
    if c.id = "" then orderUpsert tenantId o none st
    else
      let res := webhookCustomerUpsert tenantId c st
      orderUpsert tenantId o (some res.2) res.1
  | none => orderUpsert tenantId o none st

/-! ### Webhook dispatcher and transport route

A webhook payload is one JS object; each topic branch reads its own subset
of fields.  `Payload` carries every field any branch reads, and the
branch-specific record views project them out exactly as the code does. -/

/-- A parsed webhook payload. -/
structure Payload where
  id : String
  email : Option String
  first_name : Option String
  last_name : Option String
  order_number : Option String
  total_price : Option String
  currency : Option String
  title : Option String
  variants : Option (List Variant)
  created_at : Option String
  updated_at : Option String
  customer : Option CustomerRecord
deriving DecidableEq

/-- The customer fields the `customers/*` branch reads off the payload. -/
def payloadCustomer (p : Payload) : CustomerRecord :=
  ⟨p.id, p.email, p.first_name, p.last_name, p.created_at, p.updated_at⟩

/-- The product fields the `products/*` branch reads off the payload. -/
def payloadProduct (p : Payload) : ProductRecord :=
  ⟨p.id, p.title, p.variants, p.created_at⟩

/-- The order fields the `orders/` branch reads off the payload. -/
def payloadOrder (p : Payload) : OrderRecord :=
  ⟨p.id, p.order_number, p.total_price, p.currency, p.created_at, p.customer⟩

/-- A failure oracle: `oracle k = true` means the `k`-th awaited storage
operation of one `processWebhookPayload` call rejects (models transient
database errors).  Index `0` is the initial `prisma.tenant.findUnique`;
the topic branches number their operations from `1`. -/
def OpOracle : Type := Nat → Bool

/-- The body of the dispatcher's `try` block, one topic branch chosen by
the topic string.  Returns the store as left by the operations that ran,
and `some ()` when an operation rejected (the exception the outer `catch`
swallows).  `hasEventModel` is the `prisma.event` duck-type probe of the
fallback branch (false for the shipped schema, which has no `Event`
table); a failure of the event insert is caught by the branch's own inner
`catch` and never surfaces. -/
def dispatchTopic (hasEventModel : Bool) (oracle : OpOracle) (tenantId : String)
    (topic : String) (p : Payload) (st : Store) : Store × Option Unit :=
  if topic.startsWith "orders/" then
    match p.customer with
    | some c =>
      if c.id = "" then
        if oracle 1 then (st, some ()) else (orderUpsert tenantId (payloadOrder p) none st, none)
      else
        if oracle 1 then (st, some ())
        else
          let res := webhookCustomerUpsert tenantId c st
          if oracle 2 then (res.1, some ())
          else (orderUpsert tenantId (payloadOrder p) (some res.2) res.1, none)
    | none =>
      if oracle 1 then (st, some ()) else (orderUpsert tenantId (payloadOrder p) none st, none)
  else if topic == "customers/create" || topic == "customers/update" then
    if oracle 1 then (st, some ())
    else (webhookCustomerApply tenantId (payloadCustomer p) st, none)
  else if topic == "products/create" || topic == "products/update" then
    if oracle 1 then (st, some ())
    else (webhookProductApply tenantId (payloadProduct p) st, none)
  else
    if hasEventModel then
      if oracle 1 then (st, none)
      else ({ st with events := st.events ++ [⟨st.nextId, tenantId, topic⟩]
                      nextId := st.nextId + 1 }, none)
    else (st, none)

/-- `processWebhookPayload`: resolve the tenant by shop domain (this
`findUnique` runs before the `try` block, so its rejection propagates as
`.error`), silently return for an unknown tenant, and otherwise run the
dispatcher with the outer `catch` swallowing any branch error (returned
as a logged value, never as `.error`). -/
def processWebhookPayload (hasEventModel : Bool) (oracle : OpOracle)
    (topic shop : String) (p : Payload) (st : Store) :
    Except Unit (Store × Option Unit) :=
  if oracle 0 then .error ()
  else
    match st.tenants.find? (fun t => t.shop == shop) with
    | none => .ok (st, none)
    | some tenant => .ok (dispatchTopic hasEventModel oracle tenant.id topic p st)

/-- The `POST /api/webhooks/shopify` route of `src/index.ts`, after header
extraction (absent headers already defaulted to `""`).  Returns the HTTP
status, the resulting store, and whether `verifyHmac` was invoked.  In
order: reject a missing shop header (400); reject a missing raw body
(400); resolve the verification secret as `tenant?.webhookSecret ??
DEFAULT_WEBHOOK_SECRET`; reject an invalid signature (401); process the
payload, answering 200 unless the processing call itself rejected (500). -/
def webhookRoute (hmac : String → List Nat → List Nat)
    (stringifyJson : Payload → Option String) (hasEventModel : Bool)
    (oracle : OpOracle) (defaultSecret : String)
    (raw : Option (List Nat)) (hmacHeader shopHeader topicHeader : String)
    (body : Payload) (st : Store) : Nat × Store × Bool :=
  if shopHeader = "" then (400, st, false)
  else
    match raw with
    | none => (400, st, false)
    | some rawBytes =>
      let secret :=
        match st.tenants.find? (fun t => t.shop == shopHeader) with
        | some tenant => tenant.webhookSecret.getD defaultSecret
        | none => defaultSecret
      if verifyHmac hmac stringifyJson (.buf rawBytes) hmacHeader secret then
        match processWebhookPayload hasEventModel oracle topicHeader shopHeader body st with
        | .ok (st', _) => (200, st', true)
        | .error _ => (500, st, true)
      else (401, st, true)

/-! ### Backfill pass (`src/dist/sync.js`, lines 134-176) -/

/-- The `findMany` filter of the backfill query:
`{ tenantId, OR: [{ firstName: null }, { email: null }] }`. -/
def backfillWhere (tenantId : String) (r : CustomerRow) : Bool :=
  r.tenantId == tenantId && (r.firstName.isNone || r.email.isNone)

/-- The backfill selection: the tenant's incomplete customers, capped by
`take: 1000`. -/
def backfillSelect (tenantId : String) (st : Store) : List CustomerRow :=
  (st.customers.filter (backfillWhere tenantId)).take 1000

/-- One field of the backfill update object
(`if (sc.f && sc.f !== row.f) updateData.f = sc.f`): the remote value is
included exactly when it is truthy and differs (`!==`) from the stored
one. -/
def backfillPick (v : Option String) (old : Option String) : Option String :=
  match truthyStr v with
  | some e => if some e ≠ old then some e else none
  | none => none

/-- Candidate `email` for the backfill update object. -/
def backfillNewEmail (sc : CustomerRecord) (row : CustomerRow) : Option String :=
  backfillPick sc.email row.email

/-- Candidate `firstName` for the backfill update object. -/
def backfillNewFirst (sc : CustomerRecord) (row : CustomerRow) : Option String :=
  backfillPick sc.first_name row.firstName

/-- Candidate `lastName` for the backfill update object. -/
def backfillNewLast (sc : CustomerRecord) (row : CustomerRow) : Option String :=
  backfillPick sc.last_name row.lastName

/-- Applying the backfill update object to the stored row: included fields
are overwritten, `updatedAt` is set when the remote timestamp is truthy
(assigning `undefined` keeps the stored value). -/
def backfillUpd (sc : CustomerRecord) (row : CustomerRow) (r : CustomerRow) : CustomerRow :=
  { r with
    email := (backfillNewEmail sc row).or r.email
    firstName := (backfillNewFirst sc row).or r.firstName
    lastName := (backfillNewLast sc row).or r.lastName
    updatedAt := (truthyStr sc.updated_at).or r.updatedAt }

/-- One iteration of the backfill loop over a selected row: skip a falsy
`shopifyCustomerId`; fetch the single customer by remote id (`remote`
models `fetchShopifyCustomerById`, returning `none` on 404 or any fetch
error, which the loop treats as a benign skip); update by primary key only
when at least one field actually changed, counting the row as backfilled. -/
def backfillStep (remote : String → Option CustomerRecord)
    (st : Store) (row : CustomerRow) : Store × Bool :=
  if row.shopifyCustomerId = "" then (st, false)
  else
    match remote row.shopifyCustomerId with
    | none => (st, false)
    | some sc =>
      if (backfillNewEmail sc row).isSome || (backfillNewFirst sc row).isSome
          || (backfillNewLast sc row).isSome then
        ({ st with customers :=
            st.customers.map (fun q => if q.id == row.id then backfillUpd sc row q else q) },
         true)
      else (st, false)

/-- The whole backfill pass: fold the loop over the selection, counting
the rows actually updated. -/
def backfillPass (remote : String → Option CustomerRecord) (tenantId : String)
    (st : Store) : Store × Nat :=
  (backfillSelect tenantId st).foldl
    (fun acc row =>
      let res := backfillStep remote acc.1 row
      (res.1, acc.2 + if res.2 then 1 else 0))
    (st, 0)

/-! ### `fullSync` orchestration -/

/-- The counts `fullSync` returns. -/
structure SyncCounts where
  products : Nat
  customers : Nat
  orders : Nat
  backfilled : Nat
deriving DecidableEq

/-- The product loop of `fullSync` over the fetched collection. -/
def syncProducts (tenantId : String) (ps : List ProductRecord) (st : Store) : Store × Nat :=
  ps.foldl (fun acc p => (syncProductApply tenantId p acc.1, acc.2 + 1)) (st, 0)

/-- The customer loop of `fullSync`. -/
def syncCustomers (tenantId : String) (cs : List CustomerRecord) (st : Store) : Store × Nat :=
  cs.foldl (fun acc c => (syncCustomerApply tenantId c acc.1, acc.2 + 1)) (st, 0)

/-- The order loop of `fullSync`. -/
def syncOrders (tenantId : String) (os : List OrderRecord) (st : Store) : Store × Nat :=
  os.foldl (fun acc o => (syncOrderApply tenantId o acc.1, acc.2 + 1)) (st, 0)

/-- The four phases of one `fullSync` pass, given the fully materialized
collections returned by the paginated pulls and the single-customer fetch
function used by the backfill. -/
def fullSyncApply (tenantId : String) (ps : List ProductRecord)
    (cs : List CustomerRecord) (os : List OrderRecord)
    (remote : String → Option CustomerRecord) (st : Store) : Store × SyncCounts :=
  let prod := syncProducts tenantId ps st
  let cust := syncCustomers tenantId cs prod.1
  let ord := syncOrders tenantId os cust.1
  let back := backfillPass remote tenantId ord.1
  (back.1, ⟨prod.2, cust.2, ord.2, back.2⟩)

/-- `fullSync` entry: resolve the tenant by id and fail fast when it is
absent or lacks credentials (`!tenant.accessToken || !tenant.shop`), then
run the four phases. -/
def fullSync (tenantId : String) (ps : List ProductRecord)
    (cs : List CustomerRecord) (os : List OrderRecord)
    (remote : String → Option CustomerRecord) (st : Store) :
    Except String (Store × SyncCounts) :=
  match st.tenants.find? (fun t => t.id == tenantId) with
  | none => .error "tenant not found"
  | some tenant =>
    if isTruthy tenant.accessToken && tenant.shop ≠ "" then
      .ok (fullSyncApply tenantId ps cs os remote st)
    else .error "tenant missing accessToken or shop"

/-! ### Generic lemmas about the list-modelled upsert -/

/-- `Option.or` is idempotent. -/
theorem optOr_self {α : Type} (a : Option α) : a.or a = a := by
  cases a <;> rfl

/-- Re-applying the same first choice to an `Option.or` is absorbed. -/
theorem optOr_or_self {α : Type} (a b : Option α) : a.or (a.or b) = a.or b := by
  cases a <;> rfl

/-- `find?` commutes with a map that does not change the key predicate. -/
theorem find?_map_of_key {ρ : Type} (key : ρ → Bool) (f : ρ → ρ)
    (hf : ∀ q, key (f q) = key q) (rows : List ρ) :
    (rows.map f).find? key = (rows.find? key).map f := by
  induction rows with
  | nil => rfl
  | cons q qs ih =>
    by_cases hq : key q = true
    · rw [List.map_cons, List.find?_cons_of_pos _ ((hf q).trans hq),
        List.find?_cons_of_pos _ hq, Option.map_some']
    · rw [List.map_cons, List.find?_cons_of_neg _ (by rw [hf]; exact hq),
        List.find?_cons_of_neg _ hq, ih]

/-- A conditional update map is the identity on a list without key matches. -/
theorem map_upd_of_no_key {ρ : Type} (key : ρ → Bool) (upd : ρ → ρ) (rows : List ρ)
    (h : ∀ q ∈ rows, ¬ key q = true) :
    rows.map (fun q => if key q then upd q else q) = rows := by
  induction rows with
  | nil => rfl
  | cons q qs ih =>
    rw [List.map_cons, if_neg (h q (List.mem_cons_self q qs)),
      ih (fun r hr => h r (List.mem_cons_of_mem q hr))]

/-- `find?` on a list with no matches, extended by a matching element. -/
theorem find?_append_matching {ρ : Type} (key : ρ → Bool) (rows : List ρ) (x : ρ)
    (hnone : ∀ q ∈ rows, ¬ key q = true) (hx : key x = true) :
    (rows ++ [x]).find? key = some x := by
  induction rows with
  | nil => exact List.find?_cons_of_pos _ hx
  | cons q qs ih =>
    rw [List.cons_append, List.find?_cons_of_neg _ (hnone q (List.mem_cons_self q qs))]
    exact ih (fun r hr => hnone r (List.mem_cons_of_mem q hr))

/-- Applying the same upsert a second time (with any allocator value) is a
no-op: the table is unchanged, the allocator is returned as passed, and the
reported row id is the one the first upsert reported.  The hypotheses are
the facts true of every reconciliation routine: the update map keeps the
natural key and the primary key, is idempotent, and fixes a freshly created
row; a created row matches the key and carries the allocated id. -/
theorem upsertBy_stable {ρ : Type} (key : ρ → Bool) (upd : ρ → ρ) (mk : Nat → ρ)
    (getId : ρ → Nat)
    (hk : ∀ r, key (upd r) = key r)
    (hmk : ∀ n, key (mk n) = true)
    (huu : ∀ r, upd (upd r) = upd r)
    (hum : ∀ n, upd (mk n) = mk n)
    (hid : ∀ r, getId (upd r) = getId r)
    (hgm : ∀ n, getId (mk n) = n)
    (rows : List ρ) (n m : Nat) :
    upsertBy key upd mk getId (upsertBy key upd mk getId rows n).rows m =
      ⟨(upsertBy key upd mk getId rows n).rows, m,
        (upsertBy key upd mk getId rows n).rowId⟩ := by
  cases hfind : rows.find? key with
  | some r0 =>
    have hr0 : key r0 = true := List.find?_some hfind
    have hfind2 : ((rows.map (fun q => if key q then upd q else q)).find? key) =
        some (upd r0) := by
      rw [find?_map_of_key key _ (fun q => by by_cases hq : key q = true <;> simp [hq, hk]),
        hfind, Option.map_some']
      simp [hr0]
    simp only [upsertBy, hfind, hfind2]
    simp only [UpsertResult.mk.injEq]
    refine ⟨?_, trivial, hid r0⟩
    rw [List.map_map]
    apply List.map_congr_left
    intro q _
    by_cases hq : key q = true <;> simp [Function.comp, hq, hk, huu]
  | none =>
    have hnone : ∀ q ∈ rows, ¬ key q = true := List.find?_eq_none.mp hfind
    have hfind2 : (rows ++ [mk n]).find? key = some (mk n) :=
      find?_append_matching key rows (mk n) hnone (hmk n)
    simp only [upsertBy, hfind, hfind2]
    simp only [UpsertResult.mk.injEq]
    refine ⟨?_, trivial, hgm n⟩
    rw [List.map_append, map_upd_of_no_key key upd rows hnone]
    simp [hmk, hum]

/-- `Option.getD` nested on the same option is absorbed. -/
theorem optGetD_absorb {α : Type} (a : Option α) (b : α) :
    a.getD (a.getD b) = a.getD b := by
  cases a <;> rfl

/-- One sync customer upsert is stable under re-application. -/
theorem syncCustomer_upsert_stable (tid : String) (c : CustomerRecord)
    (rows : List CustomerRow) (n m : Nat) :
    upsertBy (custKey tid c.id) (syncCustomerUpd c) (syncCustomerMk tid c) (·.id)
      (upsertBy (custKey tid c.id) (syncCustomerUpd c) (syncCustomerMk tid c) (·.id) rows n).rows m =
    ⟨(upsertBy (custKey tid c.id) (syncCustomerUpd c) (syncCustomerMk tid c) (·.id) rows n).rows, m,
      (upsertBy (custKey tid c.id) (syncCustomerUpd c) (syncCustomerMk tid c) (·.id) rows n).rowId⟩ :=
  upsertBy_stable (custKey tid c.id) (syncCustomerUpd c) (syncCustomerMk tid c) (fun r => r.id)
    (fun _ => rfl)
    (fun n => by simp [custKey, syncCustomerMk])
    (fun r => by simp [syncCustomerUpd, optOr_or_self])
    (fun n => by simp [syncCustomerUpd, syncCustomerMk, optOr_self])
    (fun _ => rfl)
    (fun _ => rfl)
    rows n m

/-- Idempotency of one customer upsert of `fullSync`. -/
theorem syncCustomerApply_idem (tid : String) (c : CustomerRecord) (st : Store) :
    syncCustomerApply tid c (syncCustomerApply tid c st) = syncCustomerApply tid c st := by
  simp only [syncCustomerApply]
  rw [syncCustomer_upsert_stable]

/-- One webhook customer upsert is stable under re-application. -/
theorem webhookCustomer_upsert_stable (tid : String) (c : CustomerRecord)
    (rows : List CustomerRow) (n m : Nat) :
    upsertBy (custKey tid c.id) (webhookCustomerUpd c) (webhookCustomerMk tid c) (·.id)
      (upsertBy (custKey tid c.id) (webhookCustomerUpd c) (webhookCustomerMk tid c) (·.id) rows n).rows m =
    ⟨(upsertBy (custKey tid c.id) (webhookCustomerUpd c) (webhookCustomerMk tid c) (·.id) rows n).rows, m,
      (upsertBy (custKey tid c.id) (webhookCustomerUpd c) (webhookCustomerMk tid c) (·.id) rows n).rowId⟩ :=
  upsertBy_stable (custKey tid c.id) (webhookCustomerUpd c) (webhookCustomerMk tid c) (fun r => r.id)
    (fun _ => rfl)
    (fun n => by simp [custKey, webhookCustomerMk])
    (fun r => by simp [webhookCustomerUpd, optOr_or_self])
    (fun n => by simp [webhookCustomerUpd, webhookCustomerMk, optOr_self])
    (fun _ => rfl)
    (fun _ => rfl)
    rows n m

/-- Idempotency of the webhook customer branch. -/
theorem webhookCustomerApply_idem (tid : String) (c : CustomerRecord) (st : Store) :
    webhookCustomerApply tid c (webhookCustomerApply tid c st) =
      webhookCustomerApply tid c st := by
  simp only [webhookCustomerApply, webhookCustomerUpsert]
  rw [webhookCustomer_upsert_stable]

/-- Idempotency of one product upsert of `fullSync`. -/
theorem syncProductApply_idem (tid : String) (p : ProductRecord) (st : Store) :
    syncProductApply tid p (syncProductApply tid p st) = syncProductApply tid p st := by
  simp only [syncProductApply]
  rw [upsertBy_stable (prodKey tid p.id) (syncProductUpd p) (syncProductMk tid p) (fun r => r.id)
    (fun _ => rfl)
    (fun n => by simp [prodKey, syncProductMk])
    (fun r => by simp [syncProductUpd, optOr_or_self])
    (fun n => by simp [syncProductUpd, syncProductMk, optOr_self])
    (fun _ => rfl)
    (fun _ => rfl)]

/-- Idempotency of the webhook product branch. -/
theorem webhookProductApply_idem (tid : String) (p : ProductRecord) (st : Store) :
    webhookProductApply tid p (webhookProductApply tid p st) =
      webhookProductApply tid p st := by
  simp only [webhookProductApply]
  rw [upsertBy_stable (prodKey tid p.id) (webhookProductUpd p) (syncProductMk tid p) (fun r => r.id)
    (fun _ => rfl)
    (fun n => by simp [prodKey, syncProductMk])
    (fun r => by simp [webhookProductUpd, optOr_or_self, optGetD_absorb])
    (fun n => by simp [webhookProductUpd, syncProductMk, optOr_self, optGetD_absorb])
    (fun _ => rfl)
    (fun _ => rfl)]

/-- The shared order upsert is stable under re-application. -/
theorem order_upsert_stable (tid : String) (o : OrderRecord) (cid : Option Nat)
    (rows : List OrderRow) (n m : Nat) :
    upsertBy (orderKey tid o.id) (orderUpd o cid) (orderMk tid o cid) (·.id)
      (upsertBy (orderKey tid o.id) (orderUpd o cid) (orderMk tid o cid) (·.id) rows n).rows m =
    ⟨(upsertBy (orderKey tid o.id) (orderUpd o cid) (orderMk tid o cid) (·.id) rows n).rows, m,
      (upsertBy (orderKey tid o.id) (orderUpd o cid) (orderMk tid o cid) (·.id) rows n).rowId⟩ :=
  upsertBy_stable (orderKey tid o.id) (orderUpd o cid) (orderMk tid o cid) (fun r => r.id)
    (fun _ => rfl)
    (fun n => by simp [orderKey, orderMk])
    (fun r => by simp [orderUpd, optOr_or_self])
    (fun n => by simp [orderUpd, orderMk, optOr_self])
    (fun _ => rfl)
    (fun _ => rfl)
    rows n m

/-- Idempotency of the shared order upsert at a fixed customer reference. -/
theorem orderUpsert_idem (tid : String) (o : OrderRecord) (cid : Option Nat) (st : Store) :
    orderUpsert tid o cid (orderUpsert tid o cid st) = orderUpsert tid o cid st := by
  simp only [orderUpsert]
  rw [order_upsert_stable]

/-- Idempotency of one order upsert of `fullSync` (the tenant-scoped
customer lookup reads the customer table, which the order upsert leaves
unchanged, so the second resolution matches the first). -/
theorem syncOrderApply_idem (tid : String) (o : OrderRecord) (st : Store) :
    syncOrderApply tid o (syncOrderApply tid o st) = syncOrderApply tid o st := by
  simp only [syncOrderApply]
  exact orderUpsert_idem tid o _ st

/-- Idempotency of the webhook `orders/` branch. -/
theorem webhookOrderApply_idem (tid : String) (o : OrderRecord) (st : Store) :
    webhookOrderApply tid o (webhookOrderApply tid o st) = webhookOrderApply tid o st := by
  cases hc : o.customer with
  | none =>
    simp only [webhookOrderApply, hc]
    exact orderUpsert_idem tid o none st
  | some c =>
    by_cases hcid : c.id = ""
    · simp only [webhookOrderApply, hc, if_pos hcid]
      exact orderUpsert_idem tid o none st
    · simp only [webhookOrderApply, hc, if_neg hcid]
      simp only [webhookCustomerUpsert, orderUpsert]
      rw [webhookCustomer_upsert_stable]
      rw [order_upsert_stable]

/-- C1: applying the same remote record through a reconciliation upsert
twice — along either update path, for each of the three entity types —
leaves the store exactly as one application does (so no second row is ever
created for the same (tenant, remote id) natural key and the second
application is a no-op update), and the update branch of every upsert
keeps the tenant id and the remote id of the existing row unchanged. -/
theorem reconciliation_upsert_idempotent (tid : String) (c : CustomerRecord)
    (p : ProductRecord) (o : OrderRecord) (cid : Option Nat) (st : Store) :
    (syncCustomerApply tid c (syncCustomerApply tid c st) = syncCustomerApply tid c st
      ∧ syncProductApply tid p (syncProductApply tid p st) = syncProductApply tid p st
      ∧ syncOrderApply tid o (syncOrderApply tid o st) = syncOrderApply tid o st)
    ∧ (webhookCustomerApply tid c (webhookCustomerApply tid c st) = webhookCustomerApply tid c st
      ∧ webhookProductApply tid p (webhookProductApply tid p st) = webhookProductApply tid p st
      ∧ webhookOrderApply tid o (webhookOrderApply tid o st) = webhookOrderApply tid o st)
    ∧ (∀ r : CustomerRow, (syncCustomerUpd c r).tenantId = r.tenantId
        ∧ (syncCustomerUpd c r).shopifyCustomerId = r.shopifyCustomerId
        ∧ (webhookCustomerUpd c r).tenantId = r.tenantId
        ∧ (webhookCustomerUpd c r).shopifyCustomerId = r.shopifyCustomerId)
    ∧ (∀ r : ProductRow, (syncProductUpd p r).tenantId = r.tenantId
        ∧ (syncProductUpd p r).shopifyProductId = r.shopifyProductId
        ∧ (webhookProductUpd p r).tenantId = r.tenantId
        ∧ (webhookProductUpd p r).shopifyProductId = r.shopifyProductId)
    ∧ (∀ r : OrderRow, (orderUpd o cid r).tenantId = r.tenantId
        ∧ (orderUpd o cid r).shopifyOrderId = r.shopifyOrderId) :=
  ⟨⟨syncCustomerApply_idem tid c st, syncProductApply_idem tid p st,
     syncOrderApply_idem tid o st⟩,
   ⟨webhookCustomerApply_idem tid c st, webhookProductApply_idem tid p st,
     webhookOrderApply_idem tid o st⟩,
   fun _ => ⟨rfl, rfl, rfl, rfl⟩, fun _ => ⟨rfl, rfl, rfl, rfl⟩, fun _ => ⟨rfl, rfl⟩⟩

/-! ### Webhook authentication (claims about `verifyHmac`) -/

/-- `Char.toNat` is injective. -/
theorem charToNat_injective : Function.Injective Char.toNat := by
  intro a b h
  have h2 := congrArg Char.ofNat h
  rwa [Char.ofNat_toNat, Char.ofNat_toNat] at h2

/-- The buffer view of a string determines the string. -/
theorem strBytes_injective : Function.Injective strBytes := by
  intro s t h
  have hd : s.data = t.data := List.map_injective_iff.mpr charToNat_injective h
  cases s
  cases t
  exact congrArg String.mk hd

/-- Evaluation of `verifyHmac` on a byte buffer: accept exactly a non-empty
header whose buffer equals the buffer of the base64 digest. -/
theorem verifyHmac_buf_eval (hmac : String → List Nat → List Nat)
    (stringifyJson : Payload → Option String) (B : List Nat) (sig S : String) :
    verifyHmac hmac stringifyJson (.buf B) sig S =
      (!(sig == "") && (strBytes (base64Encode (hmac S B)) == strBytes sig)) := by
  by_cases hs : sig = ""
  · simp [verifyHmac, hs]
  · simp only [verifyHmac, if_neg hs, timingSafeEqual]
    by_cases hl : (strBytes (base64Encode (hmac S B))).length = (strBytes sig).length
    · rw [if_pos hl]
      simp [hs]
    · rw [if_neg hl]
      have hne : (strBytes (base64Encode (hmac S B)) == strBytes sig) = false := by
        rw [beq_eq_false_iff_ne]
        intro he
        exact hl (by rw [he])
      simp [hs, hne]

/-- C2: a signature verifies against a raw body `B` and secret `S` exactly
when it is non-empty and equals `base64(HMAC-SHA256(S, B))` — so the valid
signature is accepted, and any change of body, signature or secret that
changes either side of that equation (in particular any single-byte
mutation that alters the digest) is rejected, with no crash on any input
including the empty body; moreover when the supplied signature and the
computed digest differ in buffer length, the `timingSafeEqual` call throws
before comparing and the verifier returns `false`. -/
theorem verifyHmac_characterization (hmac : String → List Nat → List Nat)
    (stringifyJson : Payload → Option String) (B : List Nat) (sig S : String) :
    (verifyHmac hmac stringifyJson (.buf B) sig S = true ↔
       sig ≠ "" ∧ sig = base64Encode (hmac S B))
    ∧ ((strBytes sig).length ≠ (strBytes (base64Encode (hmac S B))).length →
        timingSafeEqual (strBytes (base64Encode (hmac S B))) (strBytes sig) = .error ()
          ∧ verifyHmac hmac stringifyJson (.buf B) sig S = false) := by
  constructor
  · rw [verifyHmac_buf_eval]
    constructor
    · intro h
      simp only [Bool.and_eq_true, Bool.not_eq_true', beq_eq_false_iff_ne, beq_iff_eq] at h
      exact ⟨h.1, (strBytes_injective h.2).symm⟩
    · rintro ⟨hs, rfl⟩
      simp [hs]
  · intro hl
    constructor
    · unfold timingSafeEqual
      rw [if_neg (fun he => hl (he.symm))]
    · rw [verifyHmac_buf_eval]
      have hne : (strBytes (base64Encode (hmac S B)) == strBytes sig) = false := by
        rw [beq_eq_false_iff_ne]
        intro he
        exact hl (by rw [he])
      simp [hne]

/-- Concrete run of the C2 characterization: the empty raw body with the
correctly computed signature (for a sample digest primitive) verifies. -/
theorem verifyHmac_characterization_witness :
    verifyHmac (fun _ _ => [1, 2, 3]) (fun (_ : Payload) => none)
      (.buf []) "AQID" "k" = true :=
  (verifyHmac_characterization (fun _ _ => [1, 2, 3]) (fun _ => none) [] "AQID" "k").1.mpr
    ⟨by decide, by decide⟩

/-- A concrete webhook payload for closed evaluations. -/
def samplePayload : Payload :=
  ⟨"10", none, none, none, none, none, none, none, none, none, none, none⟩

/-- C3 counterexample: it is not the case that `verifyHmac` always rejects
a non-buffer, non-string body — the stringify fallback can authenticate: a
signature matching the base64 digest of the re-serialized object is
accepted, for any digest primitive (exhibited here on a sample one). -/
theorem verifyHmac_stringify_fallback_cex :
    ¬ (∀ (hmac : String → List Nat → List Nat)
         (stringifyJson : Payload → Option String)
         (o : Payload) (sig secret : String),
         verifyHmac hmac stringifyJson (RawBody.obj o) sig secret = false) := by
  intro h
  exact absurd (h (fun _ _ => [1, 2, 3]) (fun _ => some "x") samplePayload "AQID" "k")
    (by decide)

/-- C3 amended: the transport layer does fail closed — a request whose raw
body was not preserved is answered 400 before `verifyHmac` is ever called
(the stringify fallback inside `verifyHmac` is unreachable from the
route). -/
theorem webhookRoute_missing_raw_fails_closed (hmac : String → List Nat → List Nat)
    (stringifyJson : Payload → Option String) (hasEventModel : Bool) (oracle : OpOracle)
    (defaultSecret : String) (hmacHeader shopHeader topicHeader : String)
    (body : Payload) (st : Store) :
    webhookRoute hmac stringifyJson hasEventModel oracle defaultSecret none
      hmacHeader shopHeader topicHeader body st = (400, st, false) := by
  by_cases hs : shopHeader = "" <;> simp [webhookRoute, hs]

/-! ### Claims about the webhook route and dispatcher error flow -/

/-- C6 counterexample: an inbound webhook whose shop-domain header matches
no stored tenant is not rejected before HMAC verification — on an empty
tenant table the route still runs `verifyHmac` (against the process-wide
default secret) and, the signature matching, even answers 200. -/
theorem webhookRoute_unknown_shop_attempts_hmac_cex :
    (webhookRoute (fun _ _ => [1, 2, 3]) (fun _ => none) false (fun _ => false)
      "whsec_default" (some [123]) "AQID" "unknown.myshopify.com"
      "customers/create" samplePayload ⟨[], [], [], [], [], 0⟩).2.2 = true
    ∧ (webhookRoute (fun _ _ => [1, 2, 3]) (fun _ => none) false (fun _ => false)
      "whsec_default" (some [123]) "AQID" "unknown.myshopify.com"
      "customers/create" samplePayload ⟨[], [], [], [], [], 0⟩).1 = 200 := by
  decide

/-- C6 amended: only a missing (empty) shop-domain header short-circuits
before authentication; an unknown-but-present shop domain resolves the
secret to the process-wide default and HMAC verification is performed
against it — the request is answered 401 exactly when that verification
fails (the dispatcher then no-ops for the unknown tenant on success). -/
theorem webhookRoute_unknown_shop_uses_default (hmac : String → List Nat → List Nat)
    (stringifyJson : Payload → Option String) (hasEventModel : Bool) (oracle : OpOracle)
    (defaultSecret : String) (raw : List Nat) (hmacHeader shopHeader topicHeader : String)
    (body : Payload) (st : Store)
    (hshop : shopHeader ≠ "")
    (hunknown : st.tenants.find? (fun t => t.shop == shopHeader) = none) :
    (webhookRoute hmac stringifyJson hasEventModel oracle defaultSecret (some raw)
        hmacHeader shopHeader topicHeader body st).2.2 = true
    ∧ ((webhookRoute hmac stringifyJson hasEventModel oracle defaultSecret (some raw)
        hmacHeader shopHeader topicHeader body st).1 = 401 ↔
        verifyHmac hmac stringifyJson (.buf raw) hmacHeader defaultSecret = false) := by
  simp only [webhookRoute, if_neg hshop, hunknown]
  by_cases hv : verifyHmac hmac stringifyJson (.buf raw) hmacHeader defaultSecret = true
  · rw [hv]
    cases hp : processWebhookPayload hasEventModel oracle topicHeader shopHeader body st with
    | ok res => simp [hp, hv]
    | error e => simp [hp, hv]
  · have hv' : verifyHmac hmac stringifyJson (.buf raw) hmacHeader defaultSecret = false :=
      Bool.not_eq_true _ ▸ Bool.of_not_eq_true hv
    rw [hv']
    simp [hv']

/-- Concrete run of the C6 amended theorem: unknown shop, failing
signature, answered 401 with verification attempted. -/
theorem webhookRoute_unknown_shop_uses_default_witness :
    (webhookRoute (fun _ _ => [5]) (fun (_ : Payload) => none) false (fun _ => false)
        "whsec_default" (some [1]) "bad" "shopA.myshopify.com" "orders/create"
        samplePayload ⟨[], [], [], [], [], 0⟩).2.2 = true
    ∧ ((webhookRoute (fun _ _ => [5]) (fun (_ : Payload) => none) false (fun _ => false)
        "whsec_default" (some [1]) "bad" "shopA.myshopify.com" "orders/create"
        samplePayload ⟨[], [], [], [], [], 0⟩).1 = 401 ↔
        verifyHmac (fun _ _ => [5]) (fun (_ : Payload) => none) (.buf [1]) "bad"
          "whsec_default" = false) :=
  webhookRoute_unknown_shop_uses_default (fun _ _ => [5]) (fun _ => none) false
    (fun _ => false) "whsec_default" [1] "bad" "shopA.myshopify.com" "orders/create"
    samplePayload ⟨[], [], [], [], [], 0⟩ (by decide) (by decide)

/-- C9 counterexample: an error raised by the tenant lookup at the top of
`processWebhookPayload` (the one awaited call that runs before the `try`
block) is not swallowed: the call rejects, and the transport route answers
500 rather than a success status. -/
theorem processWebhookPayload_tenant_lookup_error_cex :
    processWebhookPayload false (fun _ => true) "customers/create"
      "shopA.myshopify.com" samplePayload ⟨[], [], [], [], [], 0⟩ = .error ()
    ∧ (webhookRoute (fun _ _ => [1, 2, 3]) (fun _ => none) false (fun _ => true)
      "whsec_default" (some [123]) "AQID" "shopA.myshopify.com"
      "customers/create" samplePayload ⟨[], [], [], [], [], 0⟩).1 = 500 :=
  ⟨rfl, by decide⟩

/-- C9 amended: provided the initial tenant lookup itself does not reject,
`processWebhookPayload` never propagates an error — every failure of a
storage operation inside any topic branch is swallowed by the dispatcher's
`catch` (surfacing only as a logged value) — and the transport route
therefore answers 200 for every webhook whose signature verifies. -/
theorem processWebhookPayload_swallows_dispatch_errors
    (hmac : String → List Nat → List Nat) (stringifyJson : Payload → Option String)
    (hasEventModel : Bool) (oracle : OpOracle) (defaultSecret : String)
    (raw : List Nat) (hmacHeader shopHeader topicHeader : String)
    (body : Payload) (st : Store)
    (h0 : oracle 0 = false) :
    (∃ st' logged, processWebhookPayload hasEventModel oracle topicHeader shopHeader body st
        = .ok (st', logged))
    ∧ (shopHeader ≠ "" →
        verifyHmac hmac stringifyJson (.buf raw) hmacHeader
          ((st.tenants.find? (fun t => t.shop == shopHeader)).elim defaultSecret
            (fun t => t.webhookSecret.getD defaultSecret)) = true →
        (webhookRoute hmac stringifyJson hasEventModel oracle defaultSecret (some raw)
          hmacHeader shopHeader topicHeader body st).1 = 200) := by
  have hok : ∃ st' logged,
      processWebhookPayload hasEventModel oracle topicHeader shopHeader body st
        = .ok (st', logged) := by
    simp only [processWebhookPayload, h0]
    cases st.tenants.find? (fun t => t.shop == shopHeader) with
    | none => exact ⟨st, none, by simp⟩
    | some tenant =>
      cases hD : dispatchTopic hasEventModel oracle tenant.id topicHeader body st with
      | mk a b => exact ⟨a, b, by simp [hD]⟩
  refine ⟨hok, fun hshop hverify => ?_⟩
  obtain ⟨st', logged, hp⟩ := hok
  simp only [webhookRoute, if_neg hshop]
  cases hfind : st.tenants.find? (fun t => t.shop == shopHeader) with
  | none =>
    rw [hfind] at hverify
    simp only [Option.elim] at hverify
    rw [hverify, hp]
    simp
  | some tenant =>
    rw [hfind] at hverify
    simp only [Option.elim] at hverify
    rw [hverify, hp]
    simp

/-- Concrete run of the C9 amended theorem: with a known tenant, a
verifying signature and a storage layer that fails every operation inside
the dispatcher, the processing call still returns `.ok` and the route
answers 200. -/
theorem processWebhookPayload_swallows_dispatch_errors_witness :
    (∃ st' logged, processWebhookPayload false (fun k => k ≠ 0) "customers/create"
        "shopA.myshopify.com" samplePayload
        ⟨[⟨"t1", "shopA.myshopify.com", some "tok", none⟩], [], [], [], [], 0⟩
        = .ok (st', logged))
    ∧ ("shopA.myshopify.com" ≠ "" →
        verifyHmac (fun _ _ => [1, 2, 3]) (fun (_ : Payload) => none) (.buf [123]) "AQID"
          (((⟨[⟨"t1", "shopA.myshopify.com", some "tok", none⟩], [], [], [], [], 0⟩ :
              Store).tenants.find? (fun t => t.shop == "shopA.myshopify.com")).elim
            "whsec_default" (fun t => t.webhookSecret.getD "whsec_default")) = true →
        (webhookRoute (fun _ _ => [1, 2, 3]) (fun (_ : Payload) => none) false
          (fun k => k ≠ 0) "whsec_default" (some [123]) "AQID" "shopA.myshopify.com"
          "customers/create" samplePayload
          ⟨[⟨"t1", "shopA.myshopify.com", some "tok", none⟩], [], [], [], [], 0⟩).1 = 200) :=
  processWebhookPayload_swallows_dispatch_errors (fun _ _ => [1, 2, 3]) (fun _ => none)
    false (fun k => k ≠ 0) "whsec_default" [123] "AQID" "shopA.myshopify.com"
    "customers/create" samplePayload
    ⟨[⟨"t1", "shopA.myshopify.com", some "tok", none⟩], [], [], [], [], 0⟩ (by decide)

/-! ### Pagination claims -/

/-- The request `paginateAll` issues when the current continuation token is
`tok`. -/
def pageReq (status : Option String) (tok : Option String) : ShopifyReq :=
  ⟨250, status, tok⟩

/-- The mock-server scenario of the pagination claim: from continuation
token `tok` the server serves `pages` in order, each page but the last
yielding the matching entry of `toks` as its next continuation token via
the navigation header, and the last page's header yielding none. -/
def servesTok {α : Type} (srv : ShopifyReq → PageResp α) (status : Option String) :
    Option String → List (PageResp α) → List String → Prop
  | tok, [p], [] => srv (pageReq status tok) = p ∧ extractNextPageInfo p.link = none
  | tok, p :: ps, t :: ts => srv (pageReq status tok) = p
      ∧ extractNextPageInfo p.link = some t
      ∧ servesTok srv status (some t) ps ts
  | _, _, _ => False

/-- In a `servesTok` scenario there is exactly one token between
consecutive pages. -/
theorem servesTok_length {α : Type} (srv : ShopifyReq → PageResp α)
    (status : Option String) :
    ∀ (pages : List (PageResp α)) (toks : List String) (tok : Option String),
      servesTok srv status tok pages toks → pages.length = toks.length + 1 := by
  intro pages
  induction pages with
  | nil => intro toks tok h; cases toks <;> simp [servesTok] at h
  | cons p ps ih =>
    intro toks tok h
    cases ps with
    | nil =>
      cases toks with
      | nil => rfl
      | cons t ts => simp [servesTok] at h
    | cons p2 ps2 =>
      cases toks with
      | nil => simp [servesTok] at h
      | cons t ts =>
        obtain ⟨-, -, hrest⟩ := h
        simp [ih ts (some t) hrest]

/-- Unrolling `paginateLoop` over a `servesTok` scenario: with fuel equal
to the page count, the loop appends the concatenation of the page bodies
and issues exactly one request per page — the first with no continuation
token, each later one with the token extracted from the previous page. -/
theorem paginateLoop_serves {α : Type} (srv : ShopifyReq → PageResp α)
    (status : Option String) :
    ∀ (pages : List (PageResp α)) (toks : List String) (tok : Option String)
      (acc : List α) (reqs : List ShopifyReq),
      servesTok srv status tok pages toks →
      paginateLoop srv status pages.length tok acc reqs =
        (acc ++ (pages.map (fun p => p.body.getD [])).flatten,
         reqs ++ (tok :: toks.map some).map (pageReq status)) := by
  intro pages
  induction pages with
  | nil => intro toks tok acc reqs h; cases toks <;> simp [servesTok] at h
  | cons p ps ih =>
    intro toks tok acc reqs h
    cases ps with
    | nil =>
      cases toks with
      | nil =>
        obtain ⟨hsrv, hnone⟩ := h
        simp only [pageReq] at hsrv
        simp [paginateLoop, hsrv, hnone, pageReq]
      | cons t ts => simp [servesTok] at h
    | cons p2 ps2 =>
      cases toks with
      | nil => simp [servesTok] at h
      | cons t ts =>
        obtain ⟨hsrv, hnext, hrest⟩ := h
        simp only [pageReq] at hsrv
        simp only [List.length_cons]
        rw [paginateLoop]
        simp only [hsrv, hnext]
        have ih2 := ih ts (some t) (acc ++ p.body.getD [])
          (reqs ++ [⟨250, status, tok⟩]) hrest
        simp only [List.length_cons] at ih2
        rw [ih2]
        simp [pageReq, List.append_assoc]

/-- C5: for a page sequence whose first N-1 navigation headers yield the
successive continuation tokens and whose Nth header yields none, the
paginator returns exactly the concatenation of the N page bodies and
issues exactly N requests — the first without a continuation token and
each later one carrying the token extracted from the previous page's
"next" entry. -/
theorem paginateAll_pages {α : Type} (srv : ShopifyReq → PageResp α)
    (status : Option String) (pages : List (PageResp α)) (toks : List String)
    (h : servesTok srv status none pages toks) :
    paginateAll srv status pages.length =
      ((pages.map (fun p => p.body.getD [])).flatten,
        (none :: toks.map some).map (pageReq status))
    ∧ ((none :: toks.map some).map (pageReq status)).length = pages.length := by
  constructor
  · have := paginateLoop_serves srv status pages toks none [] [] h
    simpa [paginateAll] using this
  · simp [servesTok_length srv status pages toks none h]

/-- The two-page mock server of the C5 witness: the first page returns
items 1 and 2 with a "next" link carrying token `t1`; the page served for
token `t1` returns item 3 and no "next" link. -/
def srvTwoPages : ShopifyReq → PageResp Nat := fun r =>
  if r.page_info = some "t1" then ⟨some [3], none⟩
  else ⟨some [1, 2], some [⟨some "t1", "next"⟩]⟩

/-- Concrete run of the C5 theorem on the two-page mock: both pages are
concatenated and exactly two requests are issued, the second carrying
token `t1`. -/
theorem paginateAll_pages_witness :
    paginateAll srvTwoPages none 2 =
      ([1, 2, 3], [⟨250, none, none⟩, ⟨250, none, some "t1"⟩]) := by
  have h := paginateAll_pages srvTwoPages none
    [⟨some [1, 2], some [⟨some "t1", "next"⟩]⟩, ⟨some [3], none⟩] ["t1"]
    ⟨by simp [srvTwoPages, pageReq], by decide,
      by simp [srvTwoPages, pageReq], by decide⟩

  simpa [pageReq] using h.1

/-! ### Backfill claims -/

/-- `backfillPick` yields a value exactly when the remote field is truthy
and differs from the stored value. -/
theorem backfillPick_some_iff (v old : Option String) (e : String) :
    backfillPick v old = some e ↔ (truthyStr v = some e ∧ some e ≠ old) := by
  unfold backfillPick
  cases hv : truthyStr v with
  | none => simp
  | some x =>
    by_cases hne : some x ≠ old
    · simp only [if_pos hne]
      constructor
      · intro h
        obtain rfl := Option.some.inj h
        exact ⟨rfl, hne⟩
      · intro h
        obtain rfl := Option.some.inj h.1
        rfl
    · simp only [if_neg hne]
      constructor
      · intro h
        exact absurd h (by simp)
      · intro h
        obtain rfl := Option.some.inj h.1
        exact absurd h.2 hne

/-- `backfillPick` yields nothing exactly when the remote field is falsy
or matches the stored value. -/
theorem backfillPick_none_iff (v old : Option String) :
    backfillPick v old = none ↔ (truthyStr v = none ∨ truthyStr v = old) := by
  unfold backfillPick
  cases hv : truthyStr v with
  | none => simp
  | some x =>
    by_cases hne : some x ≠ old
    · simp only [if_pos hne]
      simp [Ne.symm, hne]
    · simp only [if_neg hne]
      push_neg at hne
      simp [hne]

/-- C7: the backfill pass (a) selects at most 1000 rows, (b) every selected
row belongs to the tenant and misses an email or a first name, (c) the
selection filter holds exactly for the tenant's rows with a null
`firstName` or a null `email` (so a row with null email and non-null first
name qualifies, one with both fields present does not), (d) a not-found
single-customer fetch leaves the store untouched and counts nothing,
(e) when no field actually changed the row is not updated at all and not
counted, (f) the update object contains exactly the fields whose remote
value is truthy and different from the stored one — every other column,
including the keys and `createdAt`, is preserved, with `updatedAt`
refreshed from the remote record — and (g) when a field did change, only
the selected row is rewritten, with that update, and the row is counted. -/
theorem backfill_pass_spec (tid : String) (st : Store)
    (remote : String → Option CustomerRecord) :
    (backfillSelect tid st).length ≤ 1000
    ∧ (∀ r ∈ backfillSelect tid st, backfillWhere tid r = true)
    ∧ (∀ r : CustomerRow, backfillWhere tid r = true ↔
        (r.tenantId = tid ∧ (r.firstName = none ∨ r.email = none)))
    ∧ (∀ r : CustomerRow, remote r.shopifyCustomerId = none →
        backfillStep remote st r = (st, false))
    ∧ (∀ (sc : CustomerRecord) (r : CustomerRow),
        remote r.shopifyCustomerId = some sc →
        backfillNewEmail sc r = none → backfillNewFirst sc r = none →
        backfillNewLast sc r = none →
        backfillStep remote st r = (st, false))
    ∧ (∀ (sc : CustomerRecord) (r q : CustomerRow),
        (backfillUpd sc r q).id = q.id
        ∧ (backfillUpd sc r q).tenantId = q.tenantId
        ∧ (backfillUpd sc r q).shopifyCustomerId = q.shopifyCustomerId
        ∧ (backfillUpd sc r q).createdAt = q.createdAt
        ∧ (backfillUpd sc r q).email = (backfillNewEmail sc r).or q.email
        ∧ (backfillUpd sc r q).updatedAt = (truthyStr sc.updated_at).or q.updatedAt
        ∧ (∀ e, backfillNewEmail sc r = some e ↔
            (truthyStr sc.email = some e ∧ some e ≠ r.email))
        ∧ (backfillNewEmail sc r = none ↔
            (truthyStr sc.email = none ∨ truthyStr sc.email = r.email))
        ∧ (∀ v, backfillNewFirst sc r = some v ↔
            (truthyStr sc.first_name = some v ∧ some v ≠ r.firstName))
        ∧ (∀ v, backfillNewLast sc r = some v ↔
            (truthyStr sc.last_name = some v ∧ some v ≠ r.lastName)))
    ∧ (∀ (sc : CustomerRecord) (r : CustomerRow),
        r.shopifyCustomerId ≠ "" →
        remote r.shopifyCustomerId = some sc →
        ((backfillNewEmail sc r).isSome ∨ (backfillNewFirst sc r).isSome
          ∨ (backfillNewLast sc r).isSome) →
        backfillStep remote st r =
          ({ st with customers :=
              st.customers.map (fun q => if q.id == r.id then backfillUpd sc r q else q) },
           true)) := by
  refine ⟨?_, ?_, ?_, ?_, ?_, ?_, ?_⟩
  · exact List.length_take_le 1000 _
  · intro r hr
    exact List.of_mem_filter (List.mem_of_mem_take hr)
  · intro r
    simp [backfillWhere, Option.isNone_iff_eq_none, and_comm]
  · intro r hremote
    by_cases hk : r.shopifyCustomerId = ""
    · simp [backfillStep, hk]
    · simp [backfillStep, hk, hremote]
  · intro sc r hremote he hf hl
    by_cases hk : r.shopifyCustomerId = ""
    · simp [backfillStep, hk]
    · simp [backfillStep, hk, hremote, he, hf, hl]
  · intro sc r q
    exact ⟨rfl, rfl, rfl, rfl, rfl, rfl,
      fun e => backfillPick_some_iff sc.email r.email e,
      backfillPick_none_iff sc.email r.email,
      fun v => backfillPick_some_iff sc.first_name r.firstName v,
      fun v => backfillPick_some_iff sc.last_name r.lastName v⟩
  · intro sc r hk hremote hchanged
    have hcond : ((backfillNewEmail sc r).isSome || (backfillNewFirst sc r).isSome
        || (backfillNewLast sc r).isSome) = true := by
      rcases hchanged with h | h | h <;> simp [h]
    simp [backfillStep, hk, hremote, hcond]

/-- Concrete run of the C7 theorem: a not-found single-customer fetch for a
selected row is a benign skip leaving the store unchanged. -/
theorem backfill_pass_spec_witness :
    backfillStep (fun _ => none) ⟨[], [], [], [], [], 0⟩
      ⟨1, "t1", "c1", none, some "A", none, none, none⟩ =
      (⟨[], [], [], [], [], 0⟩, false) :=
  (backfill_pass_spec "t1" ⟨[], [], [], [], [], 0⟩ (fun _ => none)).2.2.2.1
    ⟨1, "t1", "c1", none, some "A", none, none, none⟩ rfl

/-! ### Order-to-customer linking -/

/-- The row found by the natural key after an upsert: the updated existing
row when one matched, the newly created row otherwise. -/
theorem upsertBy_find? {ρ : Type} (key : ρ → Bool) (upd : ρ → ρ) (mk : Nat → ρ)
    (getId : ρ → Nat) (rows : List ρ) (n : Nat)
    (hk : ∀ r, key (upd r) = key r) (hmk : ∀ n, key (mk n) = true) :
    (upsertBy key upd mk getId rows n).rows.find? key =
      some ((rows.find? key).elim (mk n) upd) := by
  cases hfind : rows.find? key with
  | some r0 =>
    simp only [upsertBy, hfind, Option.elim]
    rw [find?_map_of_key key _ (fun q => by by_cases hq : key q = true <;> simp [hq, hk]),
      hfind]
    simp [List.find?_some hfind]
  | none =>
    simp only [upsertBy, hfind, Option.elim]
    exact find?_append_matching key rows (mk n) (List.find?_eq_none.mp hfind) (hmk n)

/-- C8 counterexample: when the referenced remote customer cannot be
resolved but the order row already exists with an earlier customer
reference, the stored order keeps that stale reference instead of being
stored with no customer reference: here the incoming order names remote
customer "88", no customer "88" exists, and the pre-existing order row's
reference to local id 7 survives the upsert. -/
theorem syncOrder_stale_customer_reference_cex :
    ((syncOrderApply "t1"
        ⟨"o1", none, none, none, none, some ⟨"88", none, none, none, none, none⟩⟩
        ⟨[], [⟨7, "t1", "77", none, none, none, none, none⟩], [],
          [⟨3, "t1", "o1", none, "5.00", none, none, some 7⟩], [], 10⟩).orders.find?
        (orderKey "t1" "o1")).map (fun r => r.customerId) = some (some 7) := by
  decide

/-- C8 amended: for an order record referencing a truthy remote customer
id, (a) when a customer row with that remote id exists for the tenant, the
stored order's reference points at that row's local id (and the resolving
lookup only ever yields ids of the tenant's own rows); (b) when no such
customer exists, a newly created order row carries no reference, while an
already existing order row keeps its previous reference unchanged; no case
raises an error. -/
theorem syncOrderApply_customer_linking (tid : String) (o : OrderRecord) (st : Store)
    (cref : CustomerRecord) (hc : o.customer = some cref) (hcid : cref.id ≠ "") :
    (∀ i, resolveCustomerId tid cref.id st.customers = some i →
      (∃ cr ∈ st.customers, cr.tenantId = tid ∧ cr.shopifyCustomerId = cref.id ∧ cr.id = i)
      ∧ ((syncOrderApply tid o st).orders.find? (orderKey tid o.id)).map
          (fun r => r.customerId) = some (some i))
    ∧ (resolveCustomerId tid cref.id st.customers = none →
        (st.orders.find? (orderKey tid o.id) = none →
          ((syncOrderApply tid o st).orders.find? (orderKey tid o.id)).map
            (fun r => r.customerId) = some none)
        ∧ (∀ ro, st.orders.find? (orderKey tid o.id) = some ro →
            ((syncOrderApply tid o st).orders.find? (orderKey tid o.id)).map
              (fun r => r.customerId) = some ro.customerId)) := by
  have hfind : ∀ cid : Option Nat,
      ((orderUpsert tid o cid st).orders.find? (orderKey tid o.id)) =
        some ((st.orders.find? (orderKey tid o.id)).elim (orderMk tid o cid st.nextId)
          (orderUpd o cid)) := by
    intro cid
    simp only [orderUpsert]
    exact upsertBy_find? (orderKey tid o.id) (orderUpd o cid) (orderMk tid o cid)
      (fun r => r.id) st.orders st.nextId (fun _ => rfl)
      (fun n => by simp [orderKey, orderMk])
  constructor
  · intro i hi
    constructor
    · obtain ⟨cr, hcr, hcrid⟩ := Option.map_eq_some'.mp hi
      have hmem := List.mem_of_find?_eq_some hcr
      have hkey := List.find?_some hcr
      simp only [custKey, Bool.and_eq_true, beq_iff_eq] at hkey
      exact ⟨cr, hmem, hkey.1, hkey.2, hcrid⟩
    · simp only [syncOrderApply, hc, if_neg hcid, hi]
      rw [hfind (some i)]
      cases st.orders.find? (orderKey tid o.id) with
      | none => simp [orderMk]
      | some ro => simp [orderUpd, Option.or]
  · intro hnone
    constructor
    · intro ho
      simp only [syncOrderApply, hc, if_neg hcid, hnone]
      rw [hfind none, ho]
      simp [orderMk]
    · intro ro ho
      simp only [syncOrderApply, hc, if_neg hcid, hnone]
      rw [hfind none, ho]
      simp [orderUpd, Option.or]

/-- Concrete run of the C8 amended theorem: with customer "77" synced, an
order referencing "77" is stored pointing at that customer's local id. -/
theorem syncOrderApply_customer_linking_witness :
    ((syncOrderApply "t1"
        ⟨"o2", none, none, none, none, some ⟨"77", none, none, none, none, none⟩⟩
        ⟨[], [⟨7, "t1", "77", none, none, none, none, none⟩], [], [], [], 10⟩).orders.find?
        (orderKey "t1" "o2")).map (fun r => r.customerId) = some (some 7) :=
  ((syncOrderApply_customer_linking "t1"
      ⟨"o2", none, none, none, none, some ⟨"77", none, none, none, none, none⟩⟩
      ⟨[], [⟨7, "t1", "77", none, none, none, none, none⟩], [], [], [], 10⟩
      ⟨"77", none, none, none, none, none⟩ rfl (by decide)).1 7 (by decide)).2

/-! ### The customer upsert fallback (C10) -/

/-- C10: under the schema's invariants — primary keys unique and the
(tenant, remote customer id) natural key unique — the fallback path of
`fullSync`'s customer loop (find by natural key, then update by primary
key or create) produces exactly the store state the composite-key upsert
produces. -/
theorem syncCustomerFallback_refines_upsert (tid : String) (c : CustomerRecord)
    (st : Store)
    (hids : (st.customers.map (fun r => r.id)).Nodup)
    (hkeys : (st.customers.map (fun r => (r.tenantId, r.shopifyCustomerId))).Nodup) :
    syncCustomerFallback tid c st = syncCustomerApply tid c st := by
  cases hfind : st.customers.find? (custKey tid c.id) with
  | none =>
    simp only [syncCustomerFallback, syncCustomerApply, upsertBy, hfind]
  | some ex =>
    have hmem := List.mem_of_find?_eq_some hfind
    have hkey := List.find?_some hfind
    simp only [syncCustomerFallback, syncCustomerApply, upsertBy, hfind]
    have hmapeq : st.customers.map
        (fun q => if q.id == ex.id then syncCustomerUpd c q else q) =
        st.customers.map
        (fun q => if custKey tid c.id q then syncCustomerUpd c q else q) := by
      apply List.map_congr_left
      intro q hq
      by_cases hqid : q.id = ex.id
      · have hqex : q = ex := List.inj_on_of_nodup_map hids hq hmem hqid
        subst hqex
        simp [hkey, hqid]
      · have hqkey : custKey tid c.id q = false := by
          by_contra hcontra
          have hqkey' : custKey tid c.id q = true := by
            revert hcontra
            cases custKey tid c.id q <;> simp
          have hpair : (fun r => (r.tenantId, r.shopifyCustomerId)) q =
              (fun r => (r.tenantId, r.shopifyCustomerId)) ex := by
            simp only [custKey, Bool.and_eq_true, beq_iff_eq] at hqkey' hkey
            simp [hqkey'.1, hqkey'.2, hkey.1, hkey.2]
          exact hqid (congrArg CustomerRow.id
            (List.inj_on_of_nodup_map hkeys hq hmem hpair))
        simp [hqid, hqkey]
    rw [hmapeq]

/-- Concrete run of the C10 theorem on a two-row store satisfying both
uniqueness invariants. -/
theorem syncCustomerFallback_refines_upsert_witness :
    syncCustomerFallback "t1" ⟨"77", some "e@x", none, none, none, none⟩
      ⟨[], [⟨7, "t1", "77", none, none, none, none, none⟩,
            ⟨8, "t2", "77", none, none, none, none, none⟩], [], [], [], 10⟩ =
    syncCustomerApply "t1" ⟨"77", some "e@x", none, none, none, none⟩
      ⟨[], [⟨7, "t1", "77", none, none, none, none, none⟩,
            ⟨8, "t2", "77", none, none, none, none, none⟩], [], [], [], 10⟩ :=
  syncCustomerFallback_refines_upsert "t1" ⟨"77", some "e@x", none, none, none, none⟩
    ⟨[], [⟨7, "t1", "77", none, none, none, none, none⟩,
          ⟨8, "t2", "77", none, none, none, none, none⟩], [], [], [], 10⟩
    (by decide) (by decide)

/-! ### Tenant isolation (C4) -/

/-- Everything a lookup scoped by tenant `t` can see: the `t`-rows of each
table. -/
structure TenantView where
  customers : List CustomerRow
  products : List ProductRow
  orders : List OrderRow
  events : List EventRow
deriving DecidableEq

/-- The tenant-scoped projection of the store. -/
def tenantView (t : String) (st : Store) : TenantView :=
  ⟨st.customers.filter (fun r => r.tenantId == t),
   st.products.filter (fun r => r.tenantId == t),
   st.orders.filter (fun r => r.tenantId == t),
   st.events.filter (fun r => r.tenantId == t)⟩

/-- A map that fixes every `p`-row and keeps `p` invariant leaves the
`p`-filtered list unchanged. -/
theorem filter_map_untouched {ρ : Type} (p : ρ → Bool) (f : ρ → ρ) (rows : List ρ)
    (h : ∀ q ∈ rows, p (f q) = p q ∧ (p q = true → f q = q)) :
    (rows.map f).filter p = rows.filter p := by
  induction rows with
  | nil => rfl
  | cons q qs ih =>
    obtain ⟨hp, hfix⟩ := h q (List.mem_cons_self q qs)
    have ih2 := ih (fun r hr => h r (List.mem_cons_of_mem q hr))
    rw [List.map_cons]
    by_cases hq : p q = true
    · rw [hfix hq, List.filter_cons_of_pos hq, List.filter_cons_of_pos hq, ih2]
    · have hq' : ¬ p q = true := hq
      rw [List.filter_cons_of_neg (by rw [hp]; exact hq'),
        List.filter_cons_of_neg hq', ih2]

/-- An upsert whose key never matches `p`-rows, whose update keeps `p`, and
whose created row is not a `p`-row, leaves the `p`-filtered table
unchanged. -/
theorem upsertBy_filter {ρ : Type} (p : ρ → Bool) (key : ρ → Bool) (upd : ρ → ρ)
    (mk : Nat → ρ) (getId : ρ → Nat) (rows : List ρ) (n : Nat)
    (hkp : ∀ r, key r = true → p r = false)
    (hpu : ∀ r, p (upd r) = p r)
    (hmkp : p (mk n) = false) :
    ((upsertBy key upd mk getId rows n).rows).filter p = rows.filter p := by
  cases hfind : rows.find? key with
  | some r0 =>
    simp only [upsertBy, hfind]
    apply filter_map_untouched
    intro q _
    constructor
    · by_cases hk : key q = true <;> simp [hk, hpu]
    · intro hpq
      have hk : key q = false := by
        cases hkq : key q with
        | false => rfl
        | true => simp [hkp q hkq] at hpq
      simp [hk]
  | none =>
    simp only [upsertBy, hfind]
    rw [List.filter_append]
    simp [hmkp]

/-- The customer upsert of `fullSync` touches no other tenant's view. -/
theorem syncCustomerApply_isolated (t1 t2 : String) (hne : t1 ≠ t2)
    (c : CustomerRecord) (st : Store) :
    tenantView t2 (syncCustomerApply t1 c st) = tenantView t2 st := by
  simp only [tenantView, syncCustomerApply, TenantView.mk.injEq]
  refine ⟨?_, trivial, trivial, trivial⟩
  apply upsertBy_filter
  · intro r hr
    simp only [custKey, Bool.and_eq_true, beq_iff_eq] at hr
    rw [hr.1]
    exact beq_false_of_ne hne
  · intro r
    rfl
  · exact beq_false_of_ne hne

/-- The webhook customer upsert touches no other tenant's view. -/
theorem webhookCustomerUpsert_isolated (t1 t2 : String) (hne : t1 ≠ t2)
    (c : CustomerRecord) (st : Store) :
    tenantView t2 (webhookCustomerUpsert t1 c st).1 = tenantView t2 st := by
  simp only [tenantView, webhookCustomerUpsert, TenantView.mk.injEq]
  refine ⟨?_, trivial, trivial, trivial⟩
  apply upsertBy_filter
  · intro r hr
    simp only [custKey, Bool.and_eq_true, beq_iff_eq] at hr
    rw [hr.1]
    exact beq_false_of_ne hne
  · intro r
    rfl
  · exact beq_false_of_ne hne

/-- The product upsert of `fullSync` touches no other tenant's view. -/
theorem syncProductApply_isolated (t1 t2 : String) (hne : t1 ≠ t2)
    (p : ProductRecord) (st : Store) :
    tenantView t2 (syncProductApply t1 p st) = tenantView t2 st := by
  simp only [tenantView, syncProductApply, TenantView.mk.injEq]
  refine ⟨trivial, ?_, trivial, trivial⟩
  apply upsertBy_filter
  · intro r hr
    simp only [prodKey, Bool.and_eq_true, beq_iff_eq] at hr
    rw [hr.1]
    exact beq_false_of_ne hne
  · intro r
    rfl
  · exact beq_false_of_ne hne

/-- The webhook product upsert touches no other tenant's view. -/
theorem webhookProductApply_isolated (t1 t2 : String) (hne : t1 ≠ t2)
    (p : ProductRecord) (st : Store) :
    tenantView t2 (webhookProductApply t1 p st) = tenantView t2 st := by
  simp only [tenantView, webhookProductApply, TenantView.mk.injEq]
  refine ⟨trivial, ?_, trivial, trivial⟩
  apply upsertBy_filter
  · intro r hr
    simp only [prodKey, Bool.and_eq_true, beq_iff_eq] at hr
    rw [hr.1]
    exact beq_false_of_ne hne
  · intro r
    rfl
  · exact beq_false_of_ne hne

/-- The shared order upsert touches no other tenant's view. -/
theorem orderUpsert_isolated (t1 t2 : String) (hne : t1 ≠ t2)
    (o : OrderRecord) (cid : Option Nat) (st : Store) :
    tenantView t2 (orderUpsert t1 o cid st) = tenantView t2 st := by
  simp only [tenantView, orderUpsert, TenantView.mk.injEq]
  refine ⟨trivial, trivial, ?_, trivial⟩
  apply upsertBy_filter
  · intro r hr
    simp only [orderKey, Bool.and_eq_true, beq_iff_eq] at hr
    rw [hr.1]
    exact beq_false_of_ne hne
  · intro r
    rfl
  · exact beq_false_of_ne hne

/-- The order step of `fullSync` touches no other tenant's view. -/
theorem syncOrderApply_isolated (t1 t2 : String) (hne : t1 ≠ t2)
    (o : OrderRecord) (st : Store) :
    tenantView t2 (syncOrderApply t1 o st) = tenantView t2 st := by
  simp only [syncOrderApply]
  exact orderUpsert_isolated t1 t2 hne o _ st

/-- The webhook `orders/` branch touches no other tenant's view. -/
theorem webhookOrderApply_isolated (t1 t2 : String) (hne : t1 ≠ t2)
    (o : OrderRecord) (st : Store) :
    tenantView t2 (webhookOrderApply t1 o st) = tenantView t2 st := by
  cases hc : o.customer with
  | none =>
    simp only [webhookOrderApply, hc]
    exact orderUpsert_isolated t1 t2 hne o none st
  | some c =>
    by_cases hcid : c.id = ""
    · simp only [webhookOrderApply, hc, if_pos hcid]
      exact orderUpsert_isolated t1 t2 hne o none st
    · simp only [webhookOrderApply, hc, if_neg hcid]
      rw [orderUpsert_isolated t1 t2 hne o _ _,
        webhookCustomerUpsert_isolated t1 t2 hne c st]

/-- No branch of the dispatcher, for tenant `t1` and under any failure
oracle, changes the view of a different tenant `t2`. -/
theorem dispatchTopic_isolated (t1 t2 : String) (hne : t1 ≠ t2) (hasEventModel : Bool)
    (oracle : OpOracle) (topic : String) (pl : Payload) (st : Store) :
    tenantView t2 (dispatchTopic hasEventModel oracle t1 topic pl st).1 =
      tenantView t2 st := by
  unfold dispatchTopic
  by_cases h1 : topic.startsWith "orders/"
  · simp only [if_pos h1]
    cases hc : pl.customer with
    | some c =>
      by_cases hcid : c.id = ""
      · simp only [if_pos hcid]
        by_cases ho : oracle 1 <;>
          simp [ho, orderUpsert_isolated t1 t2 hne (payloadOrder pl) none st]
      · simp only [if_neg hcid]
        by_cases ho1 : oracle 1
        · simp [ho1]
        · by_cases ho2 : oracle 2
          · simp [ho1, ho2, webhookCustomerUpsert_isolated t1 t2 hne c st]
          · simp only [ho1, ho2, if_false, Bool.false_eq_true]
            rw [orderUpsert_isolated t1 t2 hne (payloadOrder pl) _ _,
              webhookCustomerUpsert_isolated t1 t2 hne c st]
    | none =>
      by_cases ho : oracle 1 <;>
        simp [ho, orderUpsert_isolated t1 t2 hne (payloadOrder pl) none st]
  · simp only [if_neg h1]
    by_cases h2 : (topic == "customers/create" || topic == "customers/update") = true
    · simp only [h2, if_true]
      by_cases ho : oracle 1
      · simp [ho]
      · simp only [ho, if_false, Bool.false_eq_true]
        simp only [webhookCustomerApply]
        exact webhookCustomerUpsert_isolated t1 t2 hne (payloadCustomer pl) st
    · simp only [h2]
      by_cases h3 : (topic == "products/create" || topic == "products/update") = true
      · simp only [h3, if_true]
        by_cases ho : oracle 1
        · simp [ho]
        · simp only [ho, if_false, Bool.false_eq_true]
          exact webhookProductApply_isolated t1 t2 hne (payloadProduct pl) st
      · simp only [h3]
        by_cases hev : hasEventModel = true
        · simp only [hev, if_true]
          by_cases ho : oracle 1
          · simp [ho]
          · simp only [ho, if_false, Bool.false_eq_true]
            simp only [tenantView, TenantView.mk.injEq]
            refine ⟨trivial, trivial, trivial, ?_⟩
            rw [List.filter_append]
            simp [beq_false_of_ne hne]
        · simp only [hev]
          simp [tenantView]

/-- A counted fold of view-preserving steps preserves the view. -/
theorem foldl_view_preserved {β : Type} (t2 : String) (step : Store → β → Store)
    (hstep : ∀ s b, tenantView t2 (step s b) = tenantView t2 s) :
    ∀ (xs : List β) (acc : Store × Nat),
      tenantView t2 (xs.foldl (fun a x => (step a.1 x, a.2 + 1)) acc).1 =
        tenantView t2 acc.1 := by
  intro xs
  induction xs with
  | nil => intro acc; rfl
  | cons x xs ih =>
    intro acc
    rw [List.foldl_cons, ih]
    exact hstep acc.1 x

/-- The (primary key, tenant id) pairs of the customer table. -/
def custPairs (st : Store) : List (Nat × String) :=
  st.customers.map (fun r => (r.id, r.tenantId))

/-- One backfill step never changes primary keys or tenant owners. -/
theorem backfillStep_pairs (remote : String → Option CustomerRecord)
    (s : Store) (row : CustomerRow) :
    custPairs (backfillStep remote s row).1 = custPairs s := by
  unfold backfillStep
  by_cases hk : row.shopifyCustomerId = ""
  · simp [hk]
  · simp only [if_neg hk]
    cases hr : remote row.shopifyCustomerId with
    | none => rfl
    | some sc =>
      by_cases hcond : ((backfillNewEmail sc row).isSome || (backfillNewFirst sc row).isSome
          || (backfillNewLast sc row).isSome) = true
      · simp only [hcond, if_true]
        simp only [custPairs, List.map_map]
        apply List.map_congr_left
        intro q _
        by_cases hq : (q.id == row.id) = true <;> simp [Function.comp, hq, backfillUpd]
      · simp [hcond]

/-- One backfill step for a row owned by another tenant than `t2` (more
precisely: whose primary key is not carried by any `t2`-row) does not
change `t2`'s view. -/
theorem backfillStep_isolated (t2 : String)
    (remote : String → Option CustomerRecord) (s : Store) (row : CustomerRow)
    (hrow : ∀ q ∈ s.customers, q.id = row.id → ¬ q.tenantId = t2) :
    tenantView t2 (backfillStep remote s row).1 = tenantView t2 s := by
  unfold backfillStep
  by_cases hk : row.shopifyCustomerId = ""
  · simp [hk]
  · simp only [if_neg hk]
    cases hr : remote row.shopifyCustomerId with
    | none => rfl
    | some sc =>
      by_cases hcond : ((backfillNewEmail sc row).isSome || (backfillNewFirst sc row).isSome
          || (backfillNewLast sc row).isSome) = true
      · simp only [hcond, if_true]
        simp only [tenantView, TenantView.mk.injEq]
        refine ⟨?_, trivial, trivial, trivial⟩
        apply filter_map_untouched
        intro q hq
        constructor
        · by_cases hqid : (q.id == row.id) = true <;> simp [hqid, backfillUpd]
        · intro hpq
          have hqt2 : q.tenantId = t2 := by simpa using hpq
          have : ¬ q.id = row.id := fun hid => hrow q hq hid hqt2
          simp [this]
      · simp [hcond]

/-- The backfill fold, over rows owned by tenants other than `t2` (drawn
from a table with unique primary keys), preserves `t2`'s view. -/
theorem backfill_fold_isolated (t2 : String)
    (remote : String → Option CustomerRecord) (stOrig : Store)
    (hids : (stOrig.customers.map (fun r => r.id)).Nodup) :
    ∀ (rows : List CustomerRow) (acc : Store × Nat),
      (∀ row ∈ rows, row ∈ stOrig.customers ∧ ¬ row.tenantId = t2) →
      custPairs acc.1 = custPairs stOrig →
      tenantView t2 acc.1 = tenantView t2 stOrig →
      tenantView t2 (rows.foldl (fun a row =>
          ((backfillStep remote a.1 row).1,
            a.2 + if (backfillStep remote a.1 row).2 then 1 else 0)) acc).1 =
        tenantView t2 stOrig := by
  intro rows
  induction rows with
  | nil =>
    intro acc _ _ hview
    exact hview
  | cons row rows ih =>
    intro acc hrows hpairs hview
    obtain ⟨hmem, ht1⟩ := hrows row (List.mem_cons_self row rows)
    have hstep_view : tenantView t2 (backfillStep remote acc.1 row).1 = tenantView t2 acc.1 := by
      apply backfillStep_isolated
      intro q hq hid
      have hqpair : (q.id, q.tenantId) ∈ custPairs stOrig := by
        rw [← hpairs]
        exact List.mem_map_of_mem _ hq
      obtain ⟨q0, hq0mem, hq0pair⟩ := List.mem_map.mp hqpair
      have hq0id : q0.id = q.id := congrArg Prod.fst hq0pair
      have hq0t : q0.tenantId = q.tenantId := congrArg Prod.snd hq0pair
      have hq0row : q0 = row :=
        List.inj_on_of_nodup_map hids hq0mem hmem (by rw [hq0id, hid])
      rw [← hq0t, hq0row]
      exact ht1
    rw [List.foldl_cons]
    exact ih _ (fun r hr => hrows r (List.mem_cons_of_mem row hr))
      ((backfillStep_pairs remote acc.1 row).trans hpairs)
      (hstep_view.trans hview)

/-- The backfill pass for tenant `t1` preserves the view of any other
tenant `t2`, given the table's primary-key uniqueness. -/
theorem backfillPass_isolated (t1 t2 : String) (hne : t1 ≠ t2)
    (remote : String → Option CustomerRecord) (st : Store)
    (hids : (st.customers.map (fun r => r.id)).Nodup) :
    tenantView t2 (backfillPass remote t1 st).1 = tenantView t2 st := by
  have hsel : ∀ row ∈ backfillSelect t1 st, row ∈ st.customers ∧ ¬ row.tenantId = t2 := by
    intro row hrow
    have hmem : row ∈ st.customers.filter (backfillWhere t1) := List.mem_of_mem_take hrow
    have hfil := List.of_mem_filter hmem
    simp only [backfillWhere, Bool.and_eq_true, beq_iff_eq] at hfil
    exact ⟨List.mem_of_mem_filter hmem, by rw [hfil.1]; exact hne⟩
  exact backfill_fold_isolated t2 remote st hids (backfillSelect t1 st) (st, 0) hsel rfl rfl

/-- C4: for distinct tenants `t1 ≠ t2`, every storage operation performed
while syncing `t1` (the three per-record upserts, the three collection
loops, and the backfill pass) or while applying webhooks resolved to `t1`
(every dispatcher branch, under any failure oracle) creates or updates
rows carrying `t1`'s tenant id only, so `t2`'s tenant-scoped view of every
table is unchanged even when remote ids collide; and the
reference-resolving customer lookup is tenant-scoped — it only ever
returns the id of one of `t1`'s own rows. -/
theorem tenant_isolation (t1 t2 : String) (hne : t1 ≠ t2)
    (c : CustomerRecord) (p : ProductRecord) (o : OrderRecord) (pl : Payload)
    (topic shop : String) (hasEventModel : Bool) (oracle : OpOracle)
    (remote : String → Option CustomerRecord)
    (ps : List ProductRecord) (cs : List CustomerRecord) (os : List OrderRecord)
    (st : Store) :
    (tenantView t2 (syncCustomerApply t1 c st) = tenantView t2 st
      ∧ tenantView t2 (syncProductApply t1 p st) = tenantView t2 st
      ∧ tenantView t2 (syncOrderApply t1 o st) = tenantView t2 st)
    ∧ (tenantView t2 (webhookCustomerApply t1 c st) = tenantView t2 st
      ∧ tenantView t2 (webhookProductApply t1 p st) = tenantView t2 st
      ∧ tenantView t2 (webhookOrderApply t1 o st) = tenantView t2 st
      ∧ tenantView t2 (dispatchTopic hasEventModel oracle t1 topic pl st).1
          = tenantView t2 st)
    ∧ (tenantView t2 (syncProducts t1 ps st).1 = tenantView t2 st
      ∧ tenantView t2 (syncCustomers t1 cs st).1 = tenantView t2 st
      ∧ tenantView t2 (syncOrders t1 os st).1 = tenantView t2 st)
    ∧ ((st.customers.map (fun r => r.id)).Nodup →
        tenantView t2 (backfillPass remote t1 st).1 = tenantView t2 st)
    ∧ (∀ st' logged,
        (∀ t, st.tenants.find? (fun tt => tt.shop == shop) = some t → t.id = t1) →
        processWebhookPayload hasEventModel oracle topic shop pl st = .ok (st', logged) →
        tenantView t2 st' = tenantView t2 st)
    ∧ (∀ cid i, resolveCustomerId t1 cid st.customers = some i →
        ∃ cr ∈ st.customers, cr.tenantId = t1 ∧ cr.shopifyCustomerId = cid ∧ cr.id = i) := by
  refine ⟨⟨syncCustomerApply_isolated t1 t2 hne c st,
      syncProductApply_isolated t1 t2 hne p st,
      syncOrderApply_isolated t1 t2 hne o st⟩,
    ⟨webhookCustomerUpsert_isolated t1 t2 hne c st,
      webhookProductApply_isolated t1 t2 hne p st,
      webhookOrderApply_isolated t1 t2 hne o st,
      dispatchTopic_isolated t1 t2 hne hasEventModel oracle topic pl st⟩,
    ⟨foldl_view_preserved t2 (fun s x => syncProductApply t1 x s)
        (fun s b => syncProductApply_isolated t1 t2 hne b s) ps (st, 0),
      foldl_view_preserved t2 (fun s x => syncCustomerApply t1 x s)
        (fun s b => syncCustomerApply_isolated t1 t2 hne b s) cs (st, 0),
      foldl_view_preserved t2 (fun s x => syncOrderApply t1 x s)
        (fun s b => syncOrderApply_isolated t1 t2 hne b s) os (st, 0)⟩,
    fun hids => backfillPass_isolated t1 t2 hne remote st hids,
    ?_, ?_⟩
  · intro st' logged hres hok
    by_cases h0 : oracle 0 = true
    · simp [processWebhookPayload, h0] at hok
    · have h0' : oracle 0 = false := by
        cases hor : oracle 0 with
        | true => exact absurd hor h0
        | false => rfl
      simp only [processWebhookPayload, h0', Bool.false_eq_true, if_false] at hok
      cases hfind : st.tenants.find? (fun tt => tt.shop == shop) with
      | none =>
        rw [hfind] at hok
        simp only [Except.ok.injEq, Prod.mk.injEq] at hok
        rw [← hok.1]
      | some tenant =>
        rw [hfind] at hok
        simp only [Except.ok.injEq] at hok
        have hst' : (dispatchTopic hasEventModel oracle tenant.id topic pl st).1 = st' :=
          congrArg Prod.fst hok
        rw [← hst', hres tenant hfind]
        exact dispatchTopic_isolated t1 t2 hne hasEventModel oracle topic pl st
  · intro cid i hi
    obtain ⟨cr, hcr, hcrid⟩ := Option.map_eq_some'.mp hi
    have hmem := List.mem_of_find?_eq_some hcr
    have hkey := List.find?_some hcr
    simp only [custKey, Bool.and_eq_true, beq_iff_eq] at hkey
    exact ⟨cr, hmem, hkey.1, hkey.2, hcrid⟩

/-- Concrete run of the C4 theorem: with two tenants holding the colliding
remote customer id "100", the backfill pass for tenant `t1` leaves tenant
`t2`'s view unchanged. -/
theorem tenant_isolation_witness :
    tenantView "t2" (backfillPass (fun _ => none) "t1"
      ⟨[], [⟨1, "t1", "100", none, none, none, none, none⟩,
            ⟨2, "t2", "100", some "e", some "f", none, none, none⟩],
        [], [], [], 3⟩).1 =
    tenantView "t2"
      ⟨[], [⟨1, "t1", "100", none, none, none, none, none⟩,
            ⟨2, "t2", "100", some "e", some "f", none, none, none⟩],
        [], [], [], 3⟩ :=
  (tenant_isolation "t1" "t2" (by decide)
    ⟨"100", none, none, none, none, none⟩ ⟨"1", none, none, none⟩
    ⟨"1", none, none, none, none, none⟩ samplePayload "orders/create" "s"
    false (fun _ => false) (fun _ => none) [] [] []
    ⟨[], [⟨1, "t1", "100", none, none, none, none, none⟩,
          ⟨2, "t2", "100", some "e", some "f", none, none, none⟩],
      [], [], [], 3⟩).2.2.2.1 (by decide)
